import Mathlib

/-!
Shallow embedding of `modules/blockexplorer/addblock.go` (Sia block explorer).

The bolt key/value store is embedded as a typed record of association lists,
one per named bucket.  `encoding.Marshal` on keys is modelled by using the
key values themselves (the codec is an external collaborator, assumed
injective and correct, per the spec).  A writable bolt transaction is a
snapshot of the store that the indexing functions thread explicitly; the
committed store is replaced only when `Commit` succeeds, and an error return
leaves the committed store untouched (bolt's `defer tx.Rollback()`).

Store and codec failures ("any other error" of the spec's taxonomy) are
injected by a failure oracle `env : Nat -> Bool`: every `getObject` /
`putObject` call consumes one tick, and fails iff the oracle is true at that
tick.  Bucket-missing errors (`tx.Bucket(...) == nil` in the source) cannot
occur in the typed store, whose buckets are structural; they are one more
member of the injected-failure class.
-/

namespace Sia

/-- Content hash (`crypto.Hash`, 32 bytes in the source), embedded as `Nat`.
Addresses (`types.UnlockHash`), output ids, contract ids, block ids and
transaction ids are all converted to this type in the source. -/
abbrev Hash := Nat

/-- Zero value of `crypto.Hash` (`crypto.Hash{}` in the source). -/
def zeroHash : Hash := 0

/-- Cantor pairing, used to embed the external hash-derivation functions
(`MinerPayoutID`, `SiacoinOutputID`, `StorageProofOutputID`, ...) as
executable injective functions. -/
def pairHash (a b : Nat) : Nat := (a + b) * (a + b + 1) / 2 + b

/-- Tagged pairing: separates the id spaces of the distinct derivation
functions. -/
def tagged (tag a b : Nat) : Hash := pairHash tag (pairHash a b)

/-- Hash-type constants of the `Hashes` bucket.  Their definitions live in a
package file outside `src/`; modelled from the spec: category enum
\x7bblock, transaction, coin-output, fund-output, contract, address\x7d.
Only their identity matters to the claims, not their numeric values. -/
def hashBlock : Nat := 1

/-- Hash-type constant for transactions (see `hashBlock`). -/
def hashTransaction : Nat := 2

/-- Hash-type constant for file contracts (see `hashBlock`). -/
def hashFilecontract : Nat := 3

/-- Hash-type constant for siacoin output ids (see `hashBlock`). -/
def hashCoinOutputID : Nat := 4

/-- Hash-type constant for siafund output ids (see `hashBlock`). -/
def hashFundOutputID : Nat := 5

/-- Hash-type constant for unlock hashes / addresses (see `hashBlock`). -/
def hashUnlockHash : Nat := 6

/-- Difficulty target (`types.Target`), embedded as `Nat`. -/
abbrev Target := Nat

/-- `types.RootDepth`, the maximal (root) difficulty sentinel.  Distinct
from the zero value `0` of `Target`. -/
def RootDepth : Target := 2 ^ 256 - 1

/-- `types.SiacoinOutput` (also used for miner payouts and contract proof
outputs): only the `UnlockHash` field is read by the indexer. -/
structure SiacoinOutput where
  UnlockHash : Hash
deriving DecidableEq, Repr

/-- `types.SiafundOutput`: only the `UnlockHash` field is read. -/
structure SiafundOutput where
  UnlockHash : Hash
deriving DecidableEq, Repr

/-- `types.SiacoinInput`: only the `ParentID` field is read. -/
structure SiacoinInput where
  ParentID : Hash
deriving DecidableEq, Repr

/-- `types.SiafundInput`: only the `ParentID` field is read. -/
structure SiafundInput where
  ParentID : Hash
deriving DecidableEq, Repr

/-- `types.FileContract`: fields read by the indexer. -/
structure FileContract where
  ValidProofOutputs : List SiacoinOutput
  MissedProofOutputs : List SiacoinOutput
  UnlockHash : Hash
deriving DecidableEq, Repr

/-- `types.FileContractRevision`: fields read by the indexer. -/
structure FileContractRevision where
  ParentID : Hash
  NewValidProofOutputs : List SiacoinOutput
  NewMissedProofOutputs : List SiacoinOutput
  NewUnlockHash : Hash
deriving DecidableEq, Repr

/-- `types.StorageProof`: only the `ParentID` field is read. -/
structure StorageProof where
  ParentID : Hash
deriving DecidableEq, Repr

/-- `types.Transaction`: fields read by the indexer.  `txid` embeds the
external content hash `tx.ID()`. -/
structure Transaction where
  txid : Hash
  SiacoinInputs : List SiacoinInput
  SiacoinOutputs : List SiacoinOutput
  FileContracts : List FileContract
  FileContractRevisions : List FileContractRevision
  StorageProofs : List StorageProof
  SiafundInputs : List SiafundInput
  SiafundOutputs : List SiafundOutput
deriving DecidableEq, Repr

/-- `tx.SiacoinOutputID(i)`: deterministic id of the i-th siacoin output,
an external hash derivation embedded by tagged pairing. -/
def Transaction.SiacoinOutputID (t : Transaction) (i : Nat) : Hash :=
  tagged 11 t.txid i

/-- `tx.FileContractID(i)`: deterministic id of the i-th file contract. -/
def Transaction.FileContractID (t : Transaction) (i : Nat) : Hash :=
  tagged 12 t.txid i

/-- `tx.SiafundOutputID(i)`: deterministic id of the i-th siafund output. -/
def Transaction.SiafundOutputID (t : Transaction) (i : Nat) : Hash :=
  tagged 13 t.txid i

/-- `fcid.StorageProofOutputID(valid, j)`: deterministic id of a contract's
j-th valid/missed storage-proof output. -/
def storageProofOutputID (fcid : Hash) (valid : Bool) (j : Nat) : Hash :=
  tagged 14 fcid (pairHash (cond valid 1 0) j)

/-- `types.Block`: fields read by the indexer.  `id` embeds the external
content hash `b.ID()`. -/
structure Block where
  id : Hash
  ParentID : Hash
  Timestamp : Nat
  MinerPayouts : List SiacoinOutput
  Transactions : List Transaction
deriving DecidableEq, Repr

/-- `b.MinerPayoutID(i)`: deterministic id of the i-th miner payout. -/
def Block.MinerPayoutID (b : Block) (i : Nat) : Hash :=
  tagged 15 b.id i

/-- Modelled from the spec: the serialized size
`uint64(len(encoding.Marshal(b)))` of a block under the external codec
(the codec is out of scope); any deterministic structural size stands in
for it, and no claim depends on its value. -/
def marshalLen (b : Block) : Nat :=
  1 + b.MinerPayouts.length + b.Transactions.length

/-- Value stored in the `SiacoinOutputs` / `SiafundOutputs` buckets
(`outputTransactions` in the package).  The struct's definition lives
outside `src/`; the source constructs it positionally as
`outputTransactions\x7btxid, crypto.Hash\x7b\x7d\x7d` and mutates `.InputTx`
when the output is spent.  Modelled from the spec: "(creating transaction
id, spending transaction id | empty)" — the first field `OutputTx` is the
creating transaction, the second `InputTx` the spending one. -/
structure OutputTransactions where
  OutputTx : Hash
  InputTx : Hash
deriving DecidableEq, Repr

/-- Value stored in the `FileContracts` bucket (`fcInfo` in the package).
The source constructs it as `fcInfo\x7bContract: txid\x7d` (other fields at
their Go zero value: empty list, zero hash), appends to `.Revisions` on a
revision and sets `.Proof` on a storage proof. -/
structure FcInfo where
  Contract : Hash
  Revisions : List Hash
  Proof : Hash
deriving DecidableEq, Repr

/-- Value stored in the `Transactions` bucket (`txInfo\x7bb.ID(), i\x7d`):
containing block id and index within that block. -/
structure TxInfo where
  blockID : Hash
  idxInBlock : Nat
deriving DecidableEq, Repr

/-- Value stored in the `Blocks` bucket (`blockData` in the package):
the block payload and its height. -/
structure BlockData where
  block : Block
  height : Nat
deriving DecidableEq, Repr

/-- Value stored in the `Heights` bucket (`modules.ExplorerBlockData`):
block id, timestamp, difficulty target and serialized size. -/
structure ExplorerBlockData where
  ID : Hash
  Timestamp : Nat
  Target : Target
  Size : Nat
deriving DecidableEq, Repr

/-- Lookup in an association-list bucket (embeds `bucket.Get`): first
binding for the key, `none` when the key is absent. -/
def alGet {K V : Type} [DecidableEq K] (m : List (K × V)) (k : K) : Option V :=
  match m with
  | [] => none
  | (k', v) :: rest => if k' = k then some v else alGet rest k

/-- Overwriting insert into an association-list bucket (embeds
`bucket.Put`): the previous binding for the key, if any, is removed. -/
def alPut {K V : Type} [DecidableEq K] (m : List (K × V)) (k : K) (v : V) : List (K × V) :=
  (k, v) :: m.filter (fun p => decide (p.1 ≠ k))

/-- State of one writable bolt transaction: the typed contents of every
named bucket (`Hashes`, `Addresses`, `Blocks`, `Heights`, `Transactions`,
`SiacoinOutputs`, `SiafundOutputs`, `FileContracts`). -/
structure TxState where
  hashes : List (Hash × Nat)
  addresses : List (Hash × List Hash)
  blocks : List (Hash × BlockData)
  heights : List (Nat × ExplorerBlockData)
  transactions : List (Hash × TxInfo)
  siacoinOutputs : List (Hash × OutputTransactions)
  siafundOutputs : List (Hash × OutputTransactions)
  fileContracts : List (Hash × FcInfo)
deriving DecidableEq, Repr

/-- Errors of the embedded store layer: `ErrNilEntry` is the source's
`errors.New("entry does not exist")`; `ErrFail n` is a store/codec failure
injected by the oracle at tick `n` (bucket missing, `Put` failure,
`Unmarshal` failure, `Commit` failure). -/
inductive DBErr where
  | ErrNilEntry : DBErr
  | ErrFail : Nat → DBErr
deriving DecidableEq, Repr

/-- Result of one indexing step inside the open transaction: the
transaction state reached, the next oracle tick, and `some e` when the step
returned error `e` (writes made before the failing primitive remain in the
transaction state, exactly as in a bolt writable transaction). -/
structure StepResult where
  state : TxState
  ctr : Nat
  err : Option DBErr
deriving DecidableEq, Repr

/-- Sequencing of indexing steps with Go's early-return-on-error
discipline: on an error the remaining steps do not run. -/
def StepResult.andThen (r : StepResult) (f : TxState → Nat → StepResult) : StepResult :=
  match r with
  | ⟨s, c, some e⟩ => ⟨s, c, some e⟩
  | ⟨s, c, none⟩ => f s c

/-- Embeds `getObject` of the source: read a key from a bucket, yielding
`ErrNilEntry` when absent, an injected failure when the oracle says so, and
the decoded value otherwise.  One oracle tick is consumed. -/
def getObject {V : Type} (env : Nat → Bool) (c : Nat) (o : Option V) :
    Except DBErr V × Nat :=
  (if env c then Except.error (DBErr.ErrFail c)
   else
     match o with
     | none => Except.error DBErr.ErrNilEntry
     | some v => Except.ok v, c + 1)

/-- Embeds `putObject` of the source: write to a bucket via the update
function `upd`, failing (and writing nothing) when the oracle says so.
One oracle tick is consumed. -/
def putObject (env : Nat → Bool) (c : Nat) (s : TxState) (upd : TxState → TxState) :
    StepResult :=
  if env c then ⟨s, c + 1, some (DBErr.ErrFail c)⟩ else ⟨upd s, c + 1, none⟩

/-- Failure oracle that never fails: every store primitive succeeds. -/
def noFail : Nat → Bool := fun _ => false

/-- Embeds `addHashType`: record the hash's category in the `Hashes`
bucket (unconditional overwrite). -/
def addHashType (env : Nat → Bool) (hash : Hash) (hashType : Nat)
    (s : TxState) (c : Nat) : StepResult :=
  putObject env c s (fun s => { s with hashes := alPut s.hashes hash hashType })

/-- Embeds `addAddress`, faithfully to the source: after tagging the hash,
it reads the address's list and then executes
`if err != ErrNilEntry \x7b return err \x7d` — so when the list already
exists (`err == nil`) it returns `nil` WITHOUT appending; only on
`ErrNilEntry` does it append `txid` to the fresh empty list and write it. -/
def addAddress (env : Nat → Bool) (addr txid : Hash) (s : TxState) (c : Nat) :
    StepResult :=
  match addHashType env addr hashUnlockHash s c with
  | ⟨s, c, some e⟩ => ⟨s, c, some e⟩
  | ⟨s, c, none⟩ =>
    match getObject env c (alGet s.addresses addr) with
    | (Except.error DBErr.ErrNilEntry, c) =>
        putObject env c s
          (fun s => { s with addresses := alPut s.addresses addr ([] ++ [txid]) })
    | (Except.error e, c) => ⟨s, c, some e⟩
    | (Except.ok _, c) => ⟨s, c, none⟩

/-- Embeds `addSiacoinInput`: look up the referenced output record (must
exist) and set its `InputTx` to the spending transaction's id. -/
def addSiacoinInput (env : Nat → Bool) (outputID txid : Hash)
    (s : TxState) (c : Nat) : StepResult :=
  match getObject env c (alGet s.siacoinOutputs outputID) with
  | (Except.error e, c) => ⟨s, c, some e⟩
  | (Except.ok ot, c) =>
      putObject env c s
        (fun s => { s with siacoinOutputs := alPut s.siacoinOutputs outputID ⟨ot.OutputTx, txid⟩ })

/-- Embeds `addSiafundInput`: as `addSiacoinInput`, on the
`SiafundOutputs` bucket. -/
def addSiafundInput (env : Nat → Bool) (outputID txid : Hash)
    (s : TxState) (c : Nat) : StepResult :=
  match getObject env c (alGet s.siafundOutputs outputID) with
  | (Except.error e, c) => ⟨s, c, some e⟩
  | (Except.ok ot, c) =>
      putObject env c s
        (fun s => { s with siafundOutputs := alPut s.siafundOutputs outputID ⟨ot.OutputTx, txid⟩ })

/-- Embeds `addFcRevision`: look up the contract record (must exist) and
append the revising transaction's id to its `Revisions` list. -/
def addFcRevision (env : Nat → Bool) (fcid txid : Hash)
    (s : TxState) (c : Nat) : StepResult :=
  match getObject env c (alGet s.fileContracts fcid) with
  | (Except.error e, c) => ⟨s, c, some e⟩
  | (Except.ok fi, c) =>
      putObject env c s
        (fun s => { s with fileContracts := alPut s.fileContracts fcid ⟨fi.Contract, fi.Revisions ++ [txid], fi.Proof⟩ })

/-- Embeds `addFcProof`: look up the contract record (must exist) and set
its `Proof` field to the proving transaction's id. -/
def addFcProof (env : Nat → Bool) (fcid txid : Hash)
    (s : TxState) (c : Nat) : StepResult :=
  match getObject env c (alGet s.fileContracts fcid) with
  | (Except.error e, c) => ⟨s, c, some e⟩
  | (Except.ok fi, c) =>
      putObject env c s
        (fun s => { s with fileContracts := alPut s.fileContracts fcid ⟨fi.Contract, fi.Revisions, txid⟩ })

/-- Embeds `addNewHash`: tag the hash, then write the value into the
target bucket (the bucket-specific write is passed as `putB`, standing for
the generic `putObject(b, hash, value)` of the source). -/
def addNewHash (env : Nat → Bool) (putB : TxState → Nat → StepResult)
    (t : Nat) (hash : Hash) (s : TxState) (c : Nat) : StepResult :=
  match addHashType env hash t s c with
  | ⟨s, c, some e⟩ => ⟨s, c, some e⟩
  | ⟨s, c, none⟩ => putB s c

/-- Embeds `addNewOutput`: create a fresh siacoin output record
`outputTransactions\x7btxid, crypto.Hash\x7b\x7d\x7d` (creator = txid,
spender = zero hash). -/
def addNewOutput (env : Nat → Bool) (outputID txid : Hash)
    (s : TxState) (c : Nat) : StepResult :=
  addNewHash env
    (fun s c => putObject env c s
      (fun s => { s with siacoinOutputs := alPut s.siacoinOutputs outputID ⟨txid, zeroHash⟩ }))
    hashCoinOutputID outputID s c

/-- Embeds `addNewSFOutput`: as `addNewOutput`, on the `SiafundOutputs`
bucket. -/
def addNewSFOutput (env : Nat → Bool) (outputID txid : Hash)
    (s : TxState) (c : Nat) : StepResult :=
  addNewHash env
    (fun s c => putObject env c s
      (fun s => { s with siafundOutputs := alPut s.siafundOutputs outputID ⟨txid, zeroHash⟩ }))
    hashFundOutputID outputID s c

/-- Embeds `addHeight`: write a block summary into the `Heights` bucket
keyed by height. -/
def addHeight (env : Nat → Bool) (height : Nat) (bs : ExplorerBlockData)
    (s : TxState) (c : Nat) : StepResult :=
  putObject env c s (fun s => { s with heights := alPut s.heights height bs })

/-- Embeds a call statement whose error result is discarded: execution
continues normally whatever the call returned (the writes the call made
before failing remain in the transaction state).  The source does this
exactly once, at line 351: `addAddress(btx, revision.NewUnlockHash, txid)`
with no assignment of the returned error. -/
def discardErr (r : StepResult) : StepResult :=
  ⟨r.state, r.ctr, none⟩

/-- Indexed iteration with Go's early-return-on-error discipline, embedding
the source's `for i, x := range xs` loops whose bodies return on error. -/
def forEachIdx {α : Type} (f : Nat → α → TxState → Nat → StepResult) :
    Nat → List α → TxState → Nat → StepResult
  | _, [], s, c => ⟨s, c, none⟩
  | i, x :: xs, s, c =>
    match f i x s c with
    | ⟨s, c, some e⟩ => ⟨s, c, some e⟩
    | ⟨s, c, none⟩ => forEachIdx f (i + 1) xs s c

/-- Unindexed iteration (`for _, x := range xs`). -/
def forEach {α : Type} (f : α → TxState → Nat → StepResult)
    (xs : List α) (s : TxState) (c : Nat) : StepResult :=
  forEachIdx (fun _ x => f x) 0 xs s c

/-- Embeds `addTransaction`, in the source's exact order: siacoin inputs,
siacoin outputs, file contracts (with valid/missed proof outputs and the
contract's unlock hash), file contract revisions (where the `addAddress`
for `revision.NewUnlockHash` has its error DISCARDED, as at line 351 of
the source), storage proofs, siafund inputs, siafund outputs, and finally
the transaction's own hash tag. -/
def addTransaction (env : Nat → Bool) (tx : Transaction)
    (s : TxState) (c : Nat) : StepResult :=
  (forEach (fun (inp : SiacoinInput) => addSiacoinInput env inp.ParentID tx.txid)
      tx.SiacoinInputs s c).andThen (fun s c =>
  (forEachIdx (fun i (output : SiacoinOutput) s c =>
      (addAddress env output.UnlockHash tx.txid s c).andThen
        (addNewOutput env (tx.SiacoinOutputID i) tx.txid))
      0 tx.SiacoinOutputs s c).andThen (fun s c =>
  (forEachIdx (fun i (contract : FileContract) s c =>
      (addNewHash env
          (fun s c => putObject env c s
            (fun s => { s with fileContracts := alPut s.fileContracts (tx.FileContractID i) ⟨tx.txid, [], zeroHash⟩ }))
          hashFilecontract (tx.FileContractID i) s c).andThen (fun s c =>
      (forEachIdx (fun j (output : SiacoinOutput) s c =>
          (addAddress env output.UnlockHash tx.txid s c).andThen
            (addNewOutput env (storageProofOutputID (tx.FileContractID i) true j) tx.txid))
          0 contract.ValidProofOutputs s c).andThen (fun s c =>
      (forEachIdx (fun j (output : SiacoinOutput) s c =>
          (addAddress env output.UnlockHash tx.txid s c).andThen
            (addNewOutput env (storageProofOutputID (tx.FileContractID i) false j) tx.txid))
          0 contract.MissedProofOutputs s c).andThen (fun s c =>
      addAddress env contract.UnlockHash tx.txid s c))))
      0 tx.FileContracts s c).andThen (fun s c =>
  (forEach (fun (revision : FileContractRevision) s c =>
      (addFcRevision env revision.ParentID tx.txid s c).andThen (fun s c =>
      (forEachIdx (fun i (output : SiacoinOutput) s c =>
          (addAddress env output.UnlockHash tx.txid s c).andThen
            (addNewOutput env (storageProofOutputID revision.ParentID true i) tx.txid))
          0 revision.NewValidProofOutputs s c).andThen (fun s c =>
      (forEachIdx (fun i (output : SiacoinOutput) s c =>
          (addAddress env output.UnlockHash tx.txid s c).andThen
            (addNewOutput env (storageProofOutputID revision.ParentID false i) tx.txid))
          0 revision.NewMissedProofOutputs s c).andThen (fun s c =>
      discardErr (addAddress env revision.NewUnlockHash tx.txid s c)))))
      tx.FileContractRevisions s c).andThen (fun s c =>
  (forEach (fun (proof : StorageProof) => addFcProof env proof.ParentID tx.txid)
      tx.StorageProofs s c).andThen (fun s c =>
  (forEach (fun (inp : SiafundInput) => addSiafundInput env inp.ParentID tx.txid)
      tx.SiafundInputs s c).andThen (fun s c =>
  (forEachIdx (fun i (output : SiafundOutput) s c =>
      (addAddress env output.UnlockHash tx.txid s c).andThen
        (addNewSFOutput env (tx.SiafundOutputID i) tx.txid))
      0 tx.SiafundOutputs s c).andThen (fun s c =>
  addHashType env tx.txid hashTransaction s c)))))))

/-- The block explorer's fields read by `addBlockDB`: the designated
genesis block id, the caller-maintained height counter, and the consensus
collaborator's child-target lookup `cs.ChildTarget`, embedded as a finite
map from parent block id to target (`none` embeds `exists == false`). -/
structure BlockExplorer where
  genesisBlockID : Hash
  blockchainHeight : Nat
  cs : List (Hash × Target)
deriving DecidableEq, Repr

/-- Outcome of the difficulty-target determination at the top of
`addBlockDB`: a target, or a process abort (`panic`). -/
inductive TargetOutcome where
  | ok (t : Target)
  | panicked
deriving DecidableEq, Repr

/-- Embeds the target determination of `addBlockDB` (source lines
180-195), in the source's exact order: for the genesis block the root
sentinel with no lookup; otherwise the consensus lookup, then under
`build.DEBUG` first the `Release == "testing"` override and then —
unconditionally, even in testing — `if !exists \x7b panic \x7d`. -/
def computeBlockTarget (be : BlockExplorer) (debug testing : Bool) (b : Block) :
    TargetOutcome :=
  if b.id = be.genesisBlockID then TargetOutcome.ok RootDepth
  else
    let lookup := alGet be.cs b.ParentID
    let blocktarget := lookup.getD 0
    let found := lookup.isSome
    if debug then
      let blocktarget := if testing then RootDepth else blocktarget
      if !found then TargetOutcome.panicked else TargetOutcome.ok blocktarget
    else TargetOutcome.ok blocktarget

/-- Result of `addBlockDB`: a process abort, an error return (the deferred
rollback discards the transaction, so the committed store is unchanged), or
a successful commit publishing the transaction state. -/
inductive BlockResult where
  | panicked
  | failed (e : DBErr)
  | committed (s : TxState)
deriving DecidableEq, Repr

/-- Embeds `addBlockDB`, in the source's exact order: target
determination, then inside one transaction (a snapshot of the committed
store): block record via `addNewHash "Blocks"`, height summary, redundant
block hash tag, the miner-payout loop (address + new output per payout,
creator = block id), the transaction loop (locator via
`addNewHash "Transactions"`, then `addTransaction`), and finally
`tx.Commit()` — which consumes one oracle tick and can itself fail. -/
def addBlockDB (be : BlockExplorer) (debug testing : Bool) (env : Nat → Bool)
    (store : TxState) (b : Block) : BlockResult :=
  match computeBlockTarget be debug testing b with
  | TargetOutcome.panicked => BlockResult.panicked
  | TargetOutcome.ok blocktarget =>
    let r :=
      (addNewHash env
          (fun s c => putObject env c s
            (fun s => { s with blocks := alPut s.blocks b.id ⟨b, be.blockchainHeight⟩ }))
          hashBlock b.id store 0).andThen (fun s c =>
      (addHeight env be.blockchainHeight
          ⟨b.id, b.Timestamp, blocktarget, marshalLen b⟩ s c).andThen (fun s c =>
      (addHashType env b.id hashBlock s c).andThen (fun s c =>
      (forEachIdx (fun i (payout : SiacoinOutput) s c =>
          (addAddress env payout.UnlockHash b.id s c).andThen
            (addNewOutput env (b.MinerPayoutID i) b.id))
          0 b.MinerPayouts s c).andThen (fun s c =>
      forEachIdx (fun i (txn : Transaction) s c =>
          (addNewHash env
              (fun s c => putObject env c s
                (fun s => { s with transactions := alPut s.transactions txn.txid ⟨b.id, i⟩ }))
              hashTransaction txn.txid s c).andThen (fun s c =>
          addTransaction env txn s c))
          0 b.Transactions s c))))
    match r with
    | ⟨_, _, some e⟩ => BlockResult.failed e
    | ⟨s, c, none⟩ =>
        if env c then BlockResult.failed (DBErr.ErrFail c) else BlockResult.committed s

/-- Store visible to readers after an `addBlockDB` call: the committed
transaction state on success, the untouched previous store otherwise
(bolt's guaranteed rollback on every non-commit exit path). -/
def visibleStore (store : TxState) (r : BlockResult) : TxState :=
  match r with
  | BlockResult.committed s => s
  | _ => store

/-- Whether an `addBlockDB` run reached a successful commit. -/
def BlockResult.isCommitted : BlockResult → Bool
  | BlockResult.committed _ => true
  | _ => false

theorem alGet_alPut_self {K V : Type} [DecidableEq K] (m : List (K × V)) (k : K) (v : V) :
    alGet (alPut m k v) k = some v := by
  simp [alGet, alPut]

theorem alPut_alPut_same {K V : Type} [DecidableEq K] (m : List (K × V)) (k : K) (v : V) :
    alPut (alPut m k v) k v = alPut m k v := by
  simp [alPut, List.filter_filter]

theorem putObject_cases (env : Nat → Bool) (c : Nat) (s : TxState) (upd : TxState → TxState) :
    putObject env c s upd = ⟨s, c + 1, some (DBErr.ErrFail c)⟩
    ∨ putObject env c s upd = ⟨upd s, c + 1, none⟩ := by
  unfold putObject
  split
  · exact Or.inl rfl
  · exact Or.inr rfl

theorem addHashType_shape (env : Nat → Bool) (h t : Nat) (s : TxState) (c : Nat) :
    ∃ hx, (addHashType env h t s c).state = { s with hashes := hx } := by
  unfold addHashType putObject
  split
  · exact ⟨s.hashes, rfl⟩
  · exact ⟨alPut s.hashes h t, rfl⟩

theorem addAddress_shape (env : Nat → Bool) (a t : Hash) (s : TxState) (c : Nat) :
    ∃ hx ax, (addAddress env a t s c).state = { s with hashes := hx, addresses := ax } := by
  unfold addAddress
  rcases h1 : addHashType env a hashUnlockHash s c with ⟨s1, c1, e1⟩
  rcases addHashType_shape env a hashUnlockHash s c with ⟨hx, hs⟩
  rw [h1] at hs
  simp only at hs
  subst hs
  cases e1 with
  | some e => exact ⟨hx, s.addresses, rfl⟩
  | none =>
    simp only [getObject]
    by_cases he : env c1 = true
    · simp only [he, if_true]
      exact ⟨hx, s.addresses, rfl⟩
    · simp only [he, if_false, Bool.false_eq_true]
      cases ha : alGet s.addresses a with
      | none =>
        simp only [ha]
        unfold putObject
        split
        · exact ⟨hx, s.addresses, rfl⟩
        · exact ⟨hx, alPut s.addresses a ([] ++ [t]), rfl⟩
      | some l =>
        simp only [ha]
        exact ⟨hx, s.addresses, rfl⟩

theorem addSiacoinInput_shape (env : Nat → Bool) (oid t : Hash) (s : TxState) (c : Nat) :
    ∃ ox, (addSiacoinInput env oid t s c).state = { s with siacoinOutputs := ox } := by
  unfold addSiacoinInput
  simp only [getObject]
  by_cases he : env c = true
  · simp only [he, if_true]
    exact ⟨s.siacoinOutputs, rfl⟩
  · simp only [he, if_false, Bool.false_eq_true]
    cases ha : alGet s.siacoinOutputs oid with
    | none =>
      simp only [ha]
      exact ⟨s.siacoinOutputs, rfl⟩
    | some ot =>
      simp only [ha]
      unfold putObject
      split
      · exact ⟨s.siacoinOutputs, rfl⟩
      · exact ⟨alPut s.siacoinOutputs oid ⟨ot.OutputTx, t⟩, rfl⟩

theorem addSiafundInput_shape (env : Nat → Bool) (oid t : Hash) (s : TxState) (c : Nat) :
    ∃ ox, (addSiafundInput env oid t s c).state = { s with siafundOutputs := ox } := by
  unfold addSiafundInput
  simp only [getObject]
  by_cases he : env c = true
  · simp only [he, if_true]
    exact ⟨s.siafundOutputs, rfl⟩
  · simp only [he, if_false, Bool.false_eq_true]
    cases ha : alGet s.siafundOutputs oid with
    | none =>
      simp only [ha]
      exact ⟨s.siafundOutputs, rfl⟩
    | some ot =>
      simp only [ha]
      unfold putObject
      split
      · exact ⟨s.siafundOutputs, rfl⟩
      · exact ⟨alPut s.siafundOutputs oid ⟨ot.OutputTx, t⟩, rfl⟩

theorem addFcRevision_shape (env : Nat → Bool) (fcid t : Hash) (s : TxState) (c : Nat) :
    ∃ fx, (addFcRevision env fcid t s c).state = { s with fileContracts := fx } := by
  unfold addFcRevision
  simp only [getObject]
  by_cases he : env c = true
  · simp only [he, if_true]
    exact ⟨s.fileContracts, rfl⟩
  · simp only [he, if_false, Bool.false_eq_true]
    cases ha : alGet s.fileContracts fcid with
    | none =>
      simp only [ha]
      exact ⟨s.fileContracts, rfl⟩
    | some fi =>
      simp only [ha]
      unfold putObject
      split
      · exact ⟨s.fileContracts, rfl⟩
      · exact ⟨alPut s.fileContracts fcid ⟨fi.Contract, fi.Revisions ++ [t], fi.Proof⟩, rfl⟩

theorem addFcProof_shape (env : Nat → Bool) (fcid t : Hash) (s : TxState) (c : Nat) :
    ∃ fx, (addFcProof env fcid t s c).state = { s with fileContracts := fx } := by
  unfold addFcProof
  simp only [getObject]
  by_cases he : env c = true
  · simp only [he, if_true]
    exact ⟨s.fileContracts, rfl⟩
  · simp only [he, if_false, Bool.false_eq_true]
    cases ha : alGet s.fileContracts fcid with
    | none =>
      simp only [ha]
      exact ⟨s.fileContracts, rfl⟩
    | some fi =>
      simp only [ha]
      unfold putObject
      split
      · exact ⟨s.fileContracts, rfl⟩
      · exact ⟨alPut s.fileContracts fcid ⟨fi.Contract, fi.Revisions, t⟩, rfl⟩

theorem addNewOutput_shape (env : Nat → Bool) (oid t : Hash) (s : TxState) (c : Nat) :
    ∃ hx ox, (addNewOutput env oid t s c).state = { s with hashes := hx, siacoinOutputs := ox } := by
  unfold addNewOutput addNewHash
  rcases h1 : addHashType env oid hashCoinOutputID s c with ⟨s1, c1, e1⟩
  rcases addHashType_shape env oid hashCoinOutputID s c with ⟨hx, hs⟩
  rw [h1] at hs
  simp only at hs
  subst hs
  cases e1 with
  | some e =>
    refine ⟨hx, s.siacoinOutputs, ?_⟩
    simp only
  | none =>
    simp only
    unfold putObject
    split
    · exact ⟨hx, s.siacoinOutputs, rfl⟩
    · exact ⟨hx, alPut s.siacoinOutputs oid ⟨t, zeroHash⟩, rfl⟩

theorem addNewSFOutput_shape (env : Nat → Bool) (oid t : Hash) (s : TxState) (c : Nat) :
    ∃ hx ox, (addNewSFOutput env oid t s c).state = { s with hashes := hx, siafundOutputs := ox } := by
  unfold addNewSFOutput addNewHash
  rcases h1 : addHashType env oid hashFundOutputID s c with ⟨s1, c1, e1⟩
  rcases addHashType_shape env oid hashFundOutputID s c with ⟨hx, hs⟩
  rw [h1] at hs
  simp only at hs
  subst hs
  cases e1 with
  | some e =>
    refine ⟨hx, s.siafundOutputs, ?_⟩
    simp only
  | none =>
    simp only
    unfold putObject
    split
    · exact ⟨hx, s.siafundOutputs, rfl⟩
    · exact ⟨hx, alPut s.siafundOutputs oid ⟨t, zeroHash⟩, rfl⟩

theorem putObject_proj {β : Type} (p : TxState → β) (env : Nat → Bool) (c : Nat)
    (s : TxState) (upd : TxState → TxState) (hupd : p (upd s) = p s) :
    p ((putObject env c s upd).state) = p s := by
  rcases putObject_cases env c s upd with h | h
  · rw [h]
  · rw [h]
    exact hupd

theorem andThen_proj {β : Type} (p : TxState → β) (r : StepResult)
    (f : TxState → Nat → StepResult) (hf : ∀ s c, p ((f s c).state) = p s) :
    p ((r.andThen f).state) = p r.state := by
  rcases r with ⟨s1, c1, e1⟩
  cases e1 with
  | some e => rfl
  | none => simpa using hf s1 c1

theorem forEachIdx_proj {α β : Type} (p : TxState → β)
    (f : Nat → α → TxState → Nat → StepResult)
    (hf : ∀ i x s c, p ((f i x s c).state) = p s) :
    ∀ (i : Nat) (xs : List α) (s : TxState) (c : Nat),
      p ((forEachIdx f i xs s c).state) = p s := by
  intro i xs
  induction xs generalizing i with
  | nil => intro s c; rfl
  | cons x xs ih =>
    intro s c
    unfold forEachIdx
    rcases hfx : f i x s c with ⟨s1, c1, e1⟩
    have h1 : p s1 = p s := by
      have h2 := hf i x s c
      rw [hfx] at h2
      simpa using h2
    cases e1 with
    | some e => simpa using h1
    | none =>
      simp only
      rw [ih (i + 1) s1 c1, h1]

theorem forEach_proj {α β : Type} (p : TxState → β)
    (f : α → TxState → Nat → StepResult)
    (hf : ∀ x s c, p ((f x s c).state) = p s) :
    ∀ (xs : List α) (s : TxState) (c : Nat),
      p ((forEach f xs s c).state) = p s := by
  intro xs s c
  unfold forEach
  exact forEachIdx_proj p _ (fun i x s c => hf x s c) 0 xs s c

theorem discardErr_proj {β : Type} (p : TxState → β) (r : StepResult) :
    p ((discardErr r).state) = p r.state := rfl

theorem addHashType_heights (env : Nat → Bool) (h t : Nat) (s : TxState) (c : Nat) :
    ((addHashType env h t s c).state).heights = s.heights := by
  rcases addHashType_shape env h t s c with ⟨hx, hs⟩
  rw [hs]

theorem addHashType_fileContracts (env : Nat → Bool) (h t : Nat) (s : TxState) (c : Nat) :
    ((addHashType env h t s c).state).fileContracts = s.fileContracts := by
  rcases addHashType_shape env h t s c with ⟨hx, hs⟩
  rw [hs]

theorem addAddress_heights (env : Nat → Bool) (a t : Hash) (s : TxState) (c : Nat) :
    ((addAddress env a t s c).state).heights = s.heights := by
  rcases addAddress_shape env a t s c with ⟨hx, ax, hs⟩
  rw [hs]

theorem addAddress_fileContracts (env : Nat → Bool) (a t : Hash) (s : TxState) (c : Nat) :
    ((addAddress env a t s c).state).fileContracts = s.fileContracts := by
  rcases addAddress_shape env a t s c with ⟨hx, ax, hs⟩
  rw [hs]

theorem addSiacoinInput_heights (env : Nat → Bool) (oid t : Hash) (s : TxState) (c : Nat) :
    ((addSiacoinInput env oid t s c).state).heights = s.heights := by
  rcases addSiacoinInput_shape env oid t s c with ⟨ox, hs⟩
  rw [hs]

theorem addSiafundInput_heights (env : Nat → Bool) (oid t : Hash) (s : TxState) (c : Nat) :
    ((addSiafundInput env oid t s c).state).heights = s.heights := by
  rcases addSiafundInput_shape env oid t s c with ⟨ox, hs⟩
  rw [hs]

theorem addFcRevision_heights (env : Nat → Bool) (fcid t : Hash) (s : TxState) (c : Nat) :
    ((addFcRevision env fcid t s c).state).heights = s.heights := by
  rcases addFcRevision_shape env fcid t s c with ⟨fx, hs⟩
  rw [hs]

theorem addFcProof_heights (env : Nat → Bool) (fcid t : Hash) (s : TxState) (c : Nat) :
    ((addFcProof env fcid t s c).state).heights = s.heights := by
  rcases addFcProof_shape env fcid t s c with ⟨fx, hs⟩
  rw [hs]

theorem addNewOutput_heights (env : Nat → Bool) (oid t : Hash) (s : TxState) (c : Nat) :
    ((addNewOutput env oid t s c).state).heights = s.heights := by
  rcases addNewOutput_shape env oid t s c with ⟨hx, ox, hs⟩
  rw [hs]

theorem addNewOutput_fileContracts (env : Nat → Bool) (oid t : Hash) (s : TxState) (c : Nat) :
    ((addNewOutput env oid t s c).state).fileContracts = s.fileContracts := by
  rcases addNewOutput_shape env oid t s c with ⟨hx, ox, hs⟩
  rw [hs]

theorem addNewSFOutput_heights (env : Nat → Bool) (oid t : Hash) (s : TxState) (c : Nat) :
    ((addNewSFOutput env oid t s c).state).heights = s.heights := by
  rcases addNewSFOutput_shape env oid t s c with ⟨hx, ox, hs⟩
  rw [hs]

theorem addNewHash_proj {β : Type} (p : TxState → β)
    (hp : ∀ (s : TxState) hx, p { s with hashes := hx } = p s)
    (env : Nat → Bool) (putB : TxState → Nat → StepResult) (t h : Nat)
    (s : TxState) (c : Nat) (hput : ∀ s c, p ((putB s c).state) = p s) :
    p ((addNewHash env putB t h s c).state) = p s := by
  unfold addNewHash
  rcases h1 : addHashType env h t s c with ⟨s1, c1, e1⟩
  rcases addHashType_shape env h t s c with ⟨hx, hs⟩
  rw [h1] at hs
  simp only at hs
  subst hs
  cases e1 with
  | some e => simpa using hp s hx
  | none =>
    simp only
    rw [hput _ _]
    exact hp s hx

theorem addTransaction_heights (env : Nat → Bool) (tx : Transaction) (s : TxState) (c : Nat) :
    ((addTransaction env tx s c).state).heights = s.heights := by
  have hOut : ∀ (i : Nat) (x : SiacoinOutput) (s : TxState) (c : Nat),
      (((addAddress env x.UnlockHash tx.txid s c).andThen
        (addNewOutput env (tx.SiacoinOutputID i) tx.txid)).state).heights = s.heights :=
    fun i x s c => (andThen_proj TxState.heights _ _
      (fun s c => addNewOutput_heights env _ _ s c)).trans (addAddress_heights env _ _ s c)
  unfold addTransaction
  refine (andThen_proj TxState.heights _ _ ?_).trans
    (forEach_proj TxState.heights _ (fun x s c => addSiacoinInput_heights env _ _ s c) _ s c)
  intro s c
  refine (andThen_proj TxState.heights _ _ ?_).trans
    (forEachIdx_proj TxState.heights _ hOut 0 _ s c)
  intro s c
  refine (andThen_proj TxState.heights _ _ ?_).trans
    (forEachIdx_proj TxState.heights _ ?_ 0 _ s c)
  case refine_2 =>
    -- contract-loop body preserves heights
    intro i x s c
    refine (andThen_proj TxState.heights _ _ ?_).trans
      (addNewHash_proj TxState.heights (fun _ _ => rfl) env _ _ _ s c
        (fun s c => putObject_proj TxState.heights env c s _ rfl))
    intro s c
    refine (andThen_proj TxState.heights _ _ ?_).trans
      (forEachIdx_proj TxState.heights _
        (fun j y s c => (andThen_proj TxState.heights _ _
          (fun s c => addNewOutput_heights env _ _ s c)).trans (addAddress_heights env _ _ s c))
        0 _ s c)
    intro s c
    refine (andThen_proj TxState.heights _ _ ?_).trans
      (forEachIdx_proj TxState.heights _
        (fun j y s c => (andThen_proj TxState.heights _ _
          (fun s c => addNewOutput_heights env _ _ s c)).trans (addAddress_heights env _ _ s c))
        0 _ s c)
    intro s c
    exact addAddress_heights env _ _ s c
  case refine_1 =>
    intro s c
    refine (andThen_proj TxState.heights _ _ ?_).trans
      (forEach_proj TxState.heights _ ?_ _ s c)
    case refine_2 =>
      -- revision-loop body preserves heights
      intro x s c
      refine (andThen_proj TxState.heights _ _ ?_).trans (addFcRevision_heights env _ _ s c)
      intro s c
      refine (andThen_proj TxState.heights _ _ ?_).trans
        (forEachIdx_proj TxState.heights _
          (fun j y s c => (andThen_proj TxState.heights _ _
            (fun s c => addNewOutput_heights env _ _ s c)).trans (addAddress_heights env _ _ s c))
          0 _ s c)
      intro s c
      refine (andThen_proj TxState.heights _ _ ?_).trans
        (forEachIdx_proj TxState.heights _
          (fun j y s c => (andThen_proj TxState.heights _ _
            (fun s c => addNewOutput_heights env _ _ s c)).trans (addAddress_heights env _ _ s c))
          0 _ s c)
      intro s c
      exact (discardErr_proj TxState.heights _).trans (addAddress_heights env _ _ s c)
    case refine_1 =>
      intro s c
      refine (andThen_proj TxState.heights _ _ ?_).trans
        (forEach_proj TxState.heights _ (fun x s c => addFcProof_heights env _ _ s c) _ s c)
      intro s c
      refine (andThen_proj TxState.heights _ _ ?_).trans
        (forEach_proj TxState.heights _ (fun x s c => addSiafundInput_heights env _ _ s c) _ s c)
      intro s c
      refine (andThen_proj TxState.heights _ _ ?_).trans
        (forEachIdx_proj TxState.heights _
          (fun i x s c => (andThen_proj TxState.heights _ _
            (fun s c => addNewSFOutput_heights env _ _ s c)).trans (addAddress_heights env _ _ s c))
          0 _ s c)
      intro s c
      exact addHashType_heights env _ _ s c

theorem putObject_noFail (c : Nat) (s : TxState) (upd : TxState → TxState) :
    putObject noFail c s upd = ⟨upd s, c + 1, none⟩ := by
  simp [putObject, noFail]

theorem addHashType_noFail (h t : Nat) (s : TxState) (c : Nat) :
    addHashType noFail h t s c = ⟨{ s with
      hashes := alPut s.hashes h t }, c + 1, none⟩ := by
  simp [addHashType, putObject, noFail]

theorem addAddress_noFail_absent (a t : Hash) (s : TxState) (c : Nat)
    (h : alGet s.addresses a = none) :
    addAddress noFail a t s c = ⟨{ s with
      hashes := alPut s.hashes a hashUnlockHash,
      addresses := alPut s.addresses a [t] }, c + 3, none⟩ := by
  simp [addAddress, addHashType, putObject, getObject, noFail, h]

theorem addAddress_noFail_present (a t : Hash) (s : TxState) (c : Nat) (l : List Hash)
    (h : alGet s.addresses a = some l) :
    addAddress noFail a t s c = ⟨{ s with
      hashes := alPut s.hashes a hashUnlockHash }, c + 2, none⟩ := by
  simp [addAddress, addHashType, putObject, getObject, noFail, h]

theorem addAddress_noFail_err (a t : Hash) (s : TxState) (c : Nat) :
    (addAddress noFail a t s c).err = none := by
  cases h : alGet s.addresses a with
  | none => rw [addAddress_noFail_absent a t s c h]
  | some l => rw [addAddress_noFail_present a t s c l h]

theorem addSiacoinInput_noFail_found (oid t : Hash) (s : TxState) (c : Nat)
    (ot : OutputTransactions) (h : alGet s.siacoinOutputs oid = some ot) :
    addSiacoinInput noFail oid t s c = ⟨{ s with
      siacoinOutputs := alPut s.siacoinOutputs oid ⟨ot.OutputTx, t⟩ }, c + 2, none⟩ := by
  simp [addSiacoinInput, putObject, getObject, noFail, h]

theorem addSiacoinInput_noFail_missing (oid t : Hash) (s : TxState) (c : Nat)
    (h : alGet s.siacoinOutputs oid = none) :
    addSiacoinInput noFail oid t s c = ⟨s, c + 1, some DBErr.ErrNilEntry⟩ := by
  simp [addSiacoinInput, getObject, noFail, h]

theorem addSiafundInput_noFail_found (oid t : Hash) (s : TxState) (c : Nat)
    (ot : OutputTransactions) (h : alGet s.siafundOutputs oid = some ot) :
    addSiafundInput noFail oid t s c = ⟨{ s with
      siafundOutputs := alPut s.siafundOutputs oid ⟨ot.OutputTx, t⟩ }, c + 2, none⟩ := by
  simp [addSiafundInput, putObject, getObject, noFail, h]

theorem addFcRevision_noFail_found (fcid t : Hash) (s : TxState) (c : Nat)
    (fi : FcInfo) (h : alGet s.fileContracts fcid = some fi) :
    addFcRevision noFail fcid t s c = ⟨{ s with
      fileContracts := alPut s.fileContracts fcid
        ⟨fi.Contract, fi.Revisions ++ [t], fi.Proof⟩ }, c + 2, none⟩ := by
  simp [addFcRevision, putObject, getObject, noFail, h]

theorem addFcProof_noFail_found (fcid t : Hash) (s : TxState) (c : Nat)
    (fi : FcInfo) (h : alGet s.fileContracts fcid = some fi) :
    addFcProof noFail fcid t s c = ⟨{ s with
      fileContracts := alPut s.fileContracts fcid
        ⟨fi.Contract, fi.Revisions, t⟩ }, c + 2, none⟩ := by
  simp [addFcProof, putObject, getObject, noFail, h]

theorem addNewOutput_noFail (oid t : Hash) (s : TxState) (c : Nat) :
    addNewOutput noFail oid t s c = ⟨{ s with
      hashes := alPut s.hashes oid hashCoinOutputID,
      siacoinOutputs := alPut s.siacoinOutputs oid ⟨t, zeroHash⟩ }, c + 2, none⟩ := by
  simp [addNewOutput, addNewHash, addHashType, putObject, noFail]

theorem addNewSFOutput_noFail (oid t : Hash) (s : TxState) (c : Nat) :
    addNewSFOutput noFail oid t s c = ⟨{ s with
      hashes := alPut s.hashes oid hashFundOutputID,
      siafundOutputs := alPut s.siafundOutputs oid ⟨t, zeroHash⟩ }, c + 2, none⟩ := by
  simp [addNewSFOutput, addNewHash, addHashType, putObject, noFail]

theorem addHeight_noFail (h : Nat) (bs : ExplorerBlockData) (s : TxState) (c : Nat) :
    addHeight noFail h bs s c = ⟨{ s with
      heights := alPut s.heights h bs }, c + 1, none⟩ := by
  simp [addHeight, putObject, noFail]

theorem andThen_err (r : StepResult) (f : TxState → Nat → StepResult)
    (hr : r.err = none) (hf : ∀ s c, (f s c).err = none) :
    (r.andThen f).err = none := by
  rcases r with ⟨s1, c1, e1⟩
  cases e1 with
  | some e => simp at hr
  | none => exact hf s1 c1

theorem forEachIdx_err {α : Type} (f : Nat → α → TxState → Nat → StepResult)
    (hf : ∀ i x s c, (f i x s c).err = none) :
    ∀ (i : Nat) (xs : List α) (s : TxState) (c : Nat),
      (forEachIdx f i xs s c).err = none := by
  intro i xs
  induction xs generalizing i with
  | nil => intro s c; rfl
  | cons x xs ih =>
    intro s c
    unfold forEachIdx
    rcases hfx : f i x s c with ⟨s1, c1, e1⟩
    have h1 := hf i x s c
    rw [hfx] at h1
    cases e1 with
    | some e => simp at h1
    | none =>
      simp only
      exact ih (i + 1) s1 c1

theorem forEach_err {α : Type} (f : α → TxState → Nat → StepResult)
    (hf : ∀ x s c, (f x s c).err = none) :
    ∀ (xs : List α) (s : TxState) (c : Nat), (forEach f xs s c).err = none := by
  intro xs s c
  unfold forEach
  exact forEachIdx_err _ (fun i x s c => hf x s c) 0 xs s c

theorem addNewHash_noFail_err (putB : TxState → Nat → StepResult) (t h : Nat)
    (s : TxState) (c : Nat) (hput : ∀ s c, (putB s c).err = none) :
    (addNewHash noFail putB t h s c).err = none := by
  unfold addNewHash
  rw [addHashType_noFail]
  simp only
  exact hput _ _


/-- Failure oracle that injects a single store failure, at tick `n`. -/
def failAt (n : Nat) : Nat → Bool := fun c => c == n

/-- Store holding one file contract, id 5, created by transaction 9, with
no revisions and no proof: the starting point of the revision scenarios. -/
def revStore : TxState := ⟨[], [], [], [], [], [], [], [(5, ⟨9, [], 0⟩)]⟩

/-- Transaction 3, containing exactly one file-contract revision of
contract 5 whose new unlock hash is address 77. -/
def revTx : Transaction := ⟨3, [], [], [], [⟨5, [], [], 77⟩], [], [], []⟩

/-- Block 1 (used as the genesis block in the scenarios), at timestamp 99,
containing only `revTx`. -/
def revBlock : Block := ⟨1, 0, 99, [], [revTx]⟩

/-- C2: addAddress on address 10, which already has the list [7]: the call
reports success, yet the list is unchanged — the second reference (id 20)
is dropped, because `if err != ErrNilEntry` also returns on `err == nil`. -/
theorem claim2_second_reference_dropped :
    addAddress noFail 10 20 ⟨[], [(10, [7])], [], [], [], [], [], []⟩ 0 =
      ⟨⟨[(10, hashUnlockHash)], [(10, [7])], [], [], [], [], [], []⟩, 2, none⟩
    ∧ alGet (addAddress noFail 10 20
        ⟨[], [(10, [7])], [], [], [], [], [], []⟩ 0).state.addresses 10 = some [7] := by
  constructor <;> decide

/-- C9: for a non-genesis block whose parent is unknown to consensus, the
target determination panics in the debug+testing configuration exactly as
in debug+non-testing — the `if !exists` panic is not guarded by the
testing branch, so the claimed "force RootDepth and continue" behaviour
does not happen. -/
theorem claim9_testing_lookup_failure_panics :
    computeBlockTarget ⟨0, 0, []⟩ true true ⟨1, 42, 99, [], []⟩ = TargetOutcome.panicked
    ∧ computeBlockTarget ⟨0, 0, []⟩ true false ⟨1, 42, 99, [], []⟩ = TargetOutcome.panicked
    ∧ addBlockDB ⟨0, 0, []⟩ true true noFail ⟨[], [], [], [], [], [], [], []⟩
        ⟨1, 42, 99, [], []⟩ = BlockResult.panicked := by
  refine ⟨?_, ?_, ?_⟩ <;> decide

/-- C6 counterexample: output 8 (creator 2) is spent once by transaction 5
and then again by transaction 6; the stored spending id changes from 5 to
6, so it is not "set at most once / never changed after first set". -/
theorem claim6_spender_overwritten :
    (addSiacoinInput noFail 8 5 ⟨[], [], [], [], [], [(8, ⟨2, 0⟩)], [], []⟩ 0).err = none
    ∧ alGet (addSiacoinInput noFail 8 5
        ⟨[], [], [], [], [], [(8, ⟨2, 0⟩)], [], []⟩ 0).state.siacoinOutputs 8 = some ⟨2, 5⟩
    ∧ (addSiacoinInput noFail 8 6
        (addSiacoinInput noFail 8 5 ⟨[], [], [], [], [], [(8, ⟨2, 0⟩)], [], []⟩ 0).state
        (addSiacoinInput noFail 8 5 ⟨[], [], [], [], [], [(8, ⟨2, 0⟩)], [], []⟩ 0).ctr).err = none
    ∧ alGet (addSiacoinInput noFail 8 6
        (addSiacoinInput noFail 8 5 ⟨[], [], [], [], [], [(8, ⟨2, 0⟩)], [], []⟩ 0).state
        (addSiacoinInput noFail 8 5 ⟨[], [], [], [], [], [(8, ⟨2, 0⟩)], [], []⟩ 0).ctr).state.siacoinOutputs 8
        = some ⟨2, 6⟩ := by
  refine ⟨?_, ?_, ?_, ?_⟩ <;> decide

/-- C3: a store failure injected at tick 4 — the `putObject` inside the
`addAddress` for the revision's `NewUnlockHash` — makes that step fail,
yet `addTransaction` reports success (the source discards that error at
line 351): the address write for 77 is missing while the revision write
went through. -/
theorem claim3_revision_address_error_ignored :
    (addTransaction (failAt 4) revTx revStore 0).err = none
    ∧ (addAddress (failAt 4) 77 3 (addFcRevision (failAt 4) 5 3 revStore 0).state
        (addFcRevision (failAt 4) 5 3 revStore 0).ctr).err = some (DBErr.ErrFail 4)
    ∧ alGet (addTransaction (failAt 4) revTx revStore 0).state.addresses 77 = none
    ∧ alGet (addTransaction (failAt 4) revTx revStore 0).state.fileContracts 5
        = some ⟨9, [3], 0⟩ := by
  refine ⟨?_, ?_, ?_, ?_⟩ <;> decide

/-- C1: with a store failure injected at tick 10 (the address-list write
of the revision's `NewUnlockHash` inside `revBlock`'s only transaction),
a step of `addBlockDB` fails, yet the transaction still commits: the
visible store changes (the other writes land) while the failed step's
write is missing — under the no-failure oracle the same run stores
address 77. -/
theorem claim1_failed_step_still_commits :
    (addBlockDB ⟨1, 4, []⟩ false false (failAt 10) revStore revBlock).isCommitted = true
    ∧ visibleStore revStore (addBlockDB ⟨1, 4, []⟩ false false (failAt 10) revStore revBlock)
        ≠ revStore
    ∧ alGet (visibleStore revStore
        (addBlockDB ⟨1, 4, []⟩ false false (failAt 10) revStore revBlock)).addresses 77 = none
    ∧ alGet (visibleStore revStore
        (addBlockDB ⟨1, 4, []⟩ false false (failAt 10) revStore revBlock)).transactions 3
        = some ⟨1, 0⟩
    ∧ alGet (visibleStore revStore
        (addBlockDB ⟨1, 4, []⟩ false false noFail revStore revBlock)).addresses 77
        = some [3] := by
  refine ⟨?_, ?_, ?_, ?_, ?_⟩ <;> decide

/-- C4: an output created by `addNewOutput` with creator `t` reads back as
(creator = t, spender = zero hash); spending it later with transaction
`t2` via `addSiacoinInput` reads back as (creator = t, spender = t2) —
the creator field is untouched by the spend.  The same holds for siafund
outputs via `addNewSFOutput` / `addSiafundInput`. -/
theorem claim4_output_lifecycle (oid oid2 t t2 u u2 : Hash) (s s' : TxState) (c c' : Nat)
    (s₁ s₁' : TxState) (c₁ c₁' : Nat)
    (h1 : addNewOutput noFail oid t s c = ⟨s₁, c₁, none⟩)
    (h2 : addNewSFOutput noFail oid2 u s' c' = ⟨s₁', c₁', none⟩) :
    alGet s₁.siacoinOutputs oid = some ⟨t, zeroHash⟩
    ∧ (∃ s₂ c₂, addSiacoinInput noFail oid t2 s₁ c₁ = ⟨s₂, c₂, none⟩
        ∧ alGet s₂.siacoinOutputs oid = some ⟨t, t2⟩)
    ∧ alGet s₁'.siafundOutputs oid2 = some ⟨u, zeroHash⟩
    ∧ (∃ s₂' c₂', addSiafundInput noFail oid2 u2 s₁' c₁' = ⟨s₂', c₂', none⟩
        ∧ alGet s₂'.siafundOutputs oid2 = some ⟨u, u2⟩) := by
  rw [addNewOutput_noFail] at h1
  rw [addNewSFOutput_noFail] at h2
  injection h1 with h1s h1r
  injection h2 with h2s h2r
  subst h1s
  subst h2s
  have hget : alGet (alPut s.siacoinOutputs oid ⟨t, zeroHash⟩) oid = some ⟨t, zeroHash⟩ :=
    alGet_alPut_self _ _ _
  have hget' : alGet (alPut s'.siafundOutputs oid2 ⟨u, zeroHash⟩) oid2 = some ⟨u, zeroHash⟩ :=
    alGet_alPut_self _ _ _
  refine ⟨hget, ⟨_, _, addSiacoinInput_noFail_found oid t2 _ c₁ ⟨t, zeroHash⟩ hget, ?_⟩,
    hget', ⟨_, _, addSiafundInput_noFail_found oid2 u2 _ c₁' ⟨u, zeroHash⟩ hget', ?_⟩⟩
  · exact alGet_alPut_self _ _ _
  · exact alGet_alPut_self _ _ _

/-- C4 witness: the lifecycle at a concrete input — output 3 created by
transaction 4 then spent by 5; siafund output 4 created by 6, spent by 7. -/
theorem claim4_witness :
    (addNewOutput noFail 3 4 ⟨[], [], [], [], [], [], [], []⟩ 0 =
      ⟨⟨[(3, hashCoinOutputID)], [], [], [], [], [(3, ⟨4, zeroHash⟩)], [], []⟩, 2, none⟩)
    ∧ (addNewSFOutput noFail 4 6 ⟨[], [], [], [], [], [], [], []⟩ 0 =
      ⟨⟨[(4, hashFundOutputID)], [], [], [], [], [], [(4, ⟨6, zeroHash⟩)], []⟩, 2, none⟩)
    ∧ (alGet ([(3, (⟨4, zeroHash⟩ : OutputTransactions))]) 3 = some ⟨4, zeroHash⟩
      ∧ (∃ s₂ c₂, addSiacoinInput noFail 3 5
          ⟨[(3, hashCoinOutputID)], [], [], [], [], [(3, ⟨4, zeroHash⟩)], [], []⟩ 2 = ⟨s₂, c₂, none⟩
          ∧ alGet s₂.siacoinOutputs 3 = some ⟨4, 5⟩)
      ∧ alGet ([(4, (⟨6, zeroHash⟩ : OutputTransactions))]) 4 = some ⟨6, zeroHash⟩
      ∧ (∃ s₂' c₂', addSiafundInput noFail 4 7
          ⟨[(4, hashFundOutputID)], [], [], [], [], [], [(4, ⟨6, zeroHash⟩)], []⟩ 2 = ⟨s₂', c₂', none⟩
          ∧ alGet s₂'.siafundOutputs 4 = some ⟨6, 7⟩)) :=
  ⟨by decide, by decide,
    claim4_output_lifecycle 3 4 4 5 6 7 ⟨[], [], [], [], [], [], [], []⟩
      ⟨[], [], [], [], [], [], [], []⟩ 0 0
      ⟨[(3, hashCoinOutputID)], [], [], [], [], [(3, ⟨4, zeroHash⟩)], [], []⟩
      ⟨[(4, hashFundOutputID)], [], [], [], [], [], [(4, ⟨6, zeroHash⟩)], []⟩ 2 2
      (by decide) (by decide)⟩

/-- C7: starting from a contract record (creator `cr`, revisions `revs`,
proof `pf`), any sequence of `addFcRevision` calls with transaction ids
`ids` succeeds and leaves the record with revisions `revs ++ ids` — the
ids are appended at the end in arrival order — while the creator and
proof fields are unchanged. -/
theorem claim7_revisions_append (fcid cr pf : Hash) (revs ids : List Hash)
    (s : TxState) (c : Nat)
    (h : alGet s.fileContracts fcid = some ⟨cr, revs, pf⟩) :
    ∃ s' c', forEach (fun t => addFcRevision noFail fcid t) ids s c = ⟨s', c', none⟩
      ∧ alGet s'.fileContracts fcid = some ⟨cr, revs ++ ids, pf⟩ := by
  have key : ∀ (ids : List Hash) (i : Nat) (s : TxState) (c : Nat) (revs : List Hash),
      alGet s.fileContracts fcid = some ⟨cr, revs, pf⟩ →
      ∃ s' c', forEachIdx (fun _ t => addFcRevision noFail fcid t) i ids s c = ⟨s', c', none⟩
        ∧ alGet s'.fileContracts fcid = some ⟨cr, revs ++ ids, pf⟩ := by
    intro ids
    induction ids with
    | nil =>
      intro i s c revs h
      exact ⟨s, c, rfl, by simpa using h⟩
    | cons t ts ih =>
      intro i s c revs h
      have hstep := addFcRevision_noFail_found fcid t s c ⟨cr, revs, pf⟩ h
      have hnext : alGet ({ s with
          fileContracts := alPut s.fileContracts fcid ⟨cr, revs ++ [t], pf⟩ } : TxState).fileContracts fcid
          = some ⟨cr, revs ++ [t], pf⟩ := by
        simpa using alGet_alPut_self s.fileContracts fcid ⟨cr, revs ++ [t], pf⟩
      obtain ⟨s', c', heq, hget⟩ := ih (i + 1) _ (c + 2) (revs ++ [t]) hnext
      refine ⟨s', c', ?_, ?_⟩
      · unfold forEachIdx
        rw [hstep]
        simpa using heq
      · simpa [List.append_assoc] using hget
  unfold forEach
  exact key ids 0 s c revs h

/-- C7 witness: contract 5 (creator 9) revised by transactions 3 then 4:
the revision list becomes [3, 4], creator and proof unchanged. -/
theorem claim7_witness :
    (alGet (⟨[], [], [], [], [], [], [], [(5, ⟨9, [], 0⟩)]⟩ : TxState).fileContracts 5
      = some ⟨9, [], 0⟩)
    ∧ (∃ s' c', forEach (fun t => addFcRevision noFail 5 t) [3, 4]
        ⟨[], [], [], [], [], [], [], [(5, ⟨9, [], 0⟩)]⟩ 0 = ⟨s', c', none⟩
      ∧ alGet s'.fileContracts 5 = some ⟨9, [] ++ [3, 4], 0⟩) :=
  ⟨by decide,
    claim7_revisions_append 5 9 0 [] [3, 4]
      ⟨[], [], [], [], [], [], [], [(5, ⟨9, [], 0⟩)]⟩ 0 (by decide)⟩

theorem andThen_none (s : TxState) (c : Nat) (f : TxState → Nat → StepResult) :
    StepResult.andThen ⟨s, c, none⟩ f = f s c := rfl

theorem andThen_some (s : TxState) (c : Nat) (e : DBErr) (f : TxState → Nat → StepResult) :
    StepResult.andThen ⟨s, c, some e⟩ f = ⟨s, c, some e⟩ := rfl

theorem andThen_terminal (r : StepResult) :
    r.andThen (fun s c => ⟨s, c, none⟩) = r := by
  rcases r with ⟨s1, c1, e1⟩
  cases e1 <;> rfl

theorem forEachIdx_nil {α : Type} (f : Nat → α → TxState → Nat → StepResult)
    (i : Nat) (s : TxState) (c : Nat) :
    forEachIdx f i ([] : List α) s c = ⟨s, c, none⟩ := rfl

theorem forEachIdx_singleton {α : Type} (f : Nat → α → TxState → Nat → StepResult)
    (i : Nat) (x : α) (s : TxState) (c : Nat) :
    forEachIdx f i [x] s c = f i x s c := by
  unfold forEachIdx
  rcases hf : f i x s c with ⟨s1, c1, e1⟩
  cases e1 <;> rfl

/-- C10: "empty" is the zero hash — a freshly created coin (or fund)
output reads back with spending id `zeroHash`; a contract record created
on formation is (creator, [], zeroHash); and a fresh output "spent" by the
zero hash yields the very same store state, so an unspent output is
indistinguishable from one spent by the zero-hash transaction id. -/
theorem claim10_zero_hash_sentinel (oid oid2 t u txid : Hash) (fc : FileContract)
    (s s' sA : TxState) (c c' cA : Nat) (s₁ s₁' : TxState) (c₁ c₁' : Nat)
    (h1 : addNewOutput noFail oid t s c = ⟨s₁, c₁, none⟩)
    (h2 : addNewSFOutput noFail oid2 u s' c' = ⟨s₁', c₁', none⟩) :
    alGet s₁.siacoinOutputs oid = some ⟨t, zeroHash⟩
    ∧ alGet s₁'.siafundOutputs oid2 = some ⟨u, zeroHash⟩
    ∧ addSiacoinInput noFail oid zeroHash s₁ c₁ = ⟨s₁, c₁ + 2, none⟩
    ∧ (addTransaction noFail ⟨txid, [], [], [fc], [], [], [], []⟩ sA cA).err = none
    ∧ alGet (addTransaction noFail ⟨txid, [], [], [fc], [], [], [], []⟩ sA cA).state.fileContracts
        (Transaction.FileContractID ⟨txid, [], [], [fc], [], [], [], []⟩ 0)
        = some ⟨txid, [], zeroHash⟩ := by
  rw [addNewOutput_noFail] at h1
  rw [addNewSFOutput_noFail] at h2
  injection h1 with h1s h1r
  injection h2 with h2s h2r
  subst h1s
  subst h2s
  have hget : alGet (alPut s.siacoinOutputs oid ⟨t, zeroHash⟩) oid = some ⟨t, zeroHash⟩ :=
    alGet_alPut_self _ _ _
  have hget' : alGet (alPut s'.siafundOutputs oid2 ⟨u, zeroHash⟩) oid2 = some ⟨u, zeroHash⟩ :=
    alGet_alPut_self _ _ _
  refine ⟨hget, hget', ?_, ?_, ?_⟩
  · rw [addSiacoinInput_noFail_found oid zeroHash _ c₁ ⟨t, zeroHash⟩ hget]
    simp [alPut_alPut_same]
  · simp only [addTransaction, forEach, forEachIdx_nil, forEachIdx_singleton, andThen_none,
      andThen_terminal]
    refine andThen_err _ _ ?_ (fun s c => by rw [addHashType_noFail])
    refine andThen_err _ _ ?_ ?_
    · refine addNewHash_noFail_err _ _ _ _ _ ?_
      intro s c
      simp only [putObject_noFail]
    · intro s c
      refine andThen_err _ _ ?_ ?_
      · exact forEachIdx_err _
          (fun j y s c => andThen_err _ _ (addAddress_noFail_err _ _ _ _)
            (fun s c => by rw [addNewOutput_noFail])) 0 _ s c
      · intro s c
        refine andThen_err _ _ ?_ ?_
        · exact forEachIdx_err _
            (fun j y s c => andThen_err _ _ (addAddress_noFail_err _ _ _ _)
              (fun s c => by rw [addNewOutput_noFail])) 0 _ s c
        · intro s c
          exact addAddress_noFail_err _ _ _ _
  · simp only [addTransaction, forEach, forEachIdx_nil, forEachIdx_singleton, andThen_none,
      andThen_terminal]
    refine Eq.trans (congrArg
      (fun l => alGet l (Transaction.FileContractID ⟨txid, [], [], [fc], [], [], [], []⟩ 0)) ?_)
      (alGet_alPut_self sA.fileContracts _ ⟨txid, [], zeroHash⟩)
    refine Eq.trans (andThen_proj (fun st => st.fileContracts) _ _
      (fun s c => addHashType_fileContracts noFail _ _ s c)) ?_
    refine Eq.trans (andThen_proj (fun st => st.fileContracts) _ _ ?_) ?_
    · intro s c
      refine (andThen_proj (fun st => st.fileContracts) _ _ ?_).trans
        (forEachIdx_proj (fun st => st.fileContracts) _
          (fun j y s c => (andThen_proj (fun st => st.fileContracts) _ _
            (fun s c => addNewOutput_fileContracts noFail _ _ s c)).trans
            (addAddress_fileContracts noFail _ _ s c)) 0 _ s c)
      intro s c
      refine (andThen_proj (fun st => st.fileContracts) _ _ ?_).trans
        (forEachIdx_proj (fun st => st.fileContracts) _
          (fun j y s c => (andThen_proj (fun st => st.fileContracts) _ _
            (fun s c => addNewOutput_fileContracts noFail _ _ s c)).trans
            (addAddress_fileContracts noFail _ _ s c)) 0 _ s c)
      intro s c
      exact addAddress_fileContracts noFail _ _ s c
    · simp only [addNewHash, addHashType_noFail, putObject_noFail]

/-- C10 witness: the sentinel behaviour at concrete inputs — output 3
created by transaction 4, fund output 4 created by 6, and a contract
formed by transaction 2. -/
theorem claim10_witness :
    (addNewOutput noFail 3 4 ⟨[], [], [], [], [], [], [], []⟩ 0 =
      ⟨⟨[(3, hashCoinOutputID)], [], [], [], [], [(3, ⟨4, zeroHash⟩)], [], []⟩, 2, none⟩)
    ∧ (addNewSFOutput noFail 4 6 ⟨[], [], [], [], [], [], [], []⟩ 0 =
      ⟨⟨[(4, hashFundOutputID)], [], [], [], [], [], [(4, ⟨6, zeroHash⟩)], []⟩, 2, none⟩)
    ∧ (alGet ([(3, (⟨4, zeroHash⟩ : OutputTransactions))]) 3 = some ⟨4, zeroHash⟩
      ∧ alGet ([(4, (⟨6, zeroHash⟩ : OutputTransactions))]) 4 = some ⟨6, zeroHash⟩
      ∧ addSiacoinInput noFail 3 zeroHash
          ⟨[(3, hashCoinOutputID)], [], [], [], [], [(3, ⟨4, zeroHash⟩)], [], []⟩ 2 =
          ⟨⟨[(3, hashCoinOutputID)], [], [], [], [], [(3, ⟨4, zeroHash⟩)], [], []⟩, 4, none⟩
      ∧ (addTransaction noFail ⟨2, [], [], [⟨[], [], 8⟩], [], [], [], []⟩
          ⟨[], [], [], [], [], [], [], []⟩ 0).err = none
      ∧ alGet (addTransaction noFail ⟨2, [], [], [⟨[], [], 8⟩], [], [], [], []⟩
            ⟨[], [], [], [], [], [], [], []⟩ 0).state.fileContracts
          (Transaction.FileContractID ⟨2, [], [], [⟨[], [], 8⟩], [], [], [], []⟩ 0)
          = some ⟨2, [], zeroHash⟩) :=
  ⟨by decide, by decide,
    claim10_zero_hash_sentinel 3 4 4 6 2 ⟨[], [], 8⟩
      ⟨[], [], [], [], [], [], [], []⟩ ⟨[], [], [], [], [], [], [], []⟩
      ⟨[], [], [], [], [], [], [], []⟩ 0 0 0
      ⟨[(3, hashCoinOutputID)], [], [], [], [], [(3, ⟨4, zeroHash⟩)], [], []⟩
      ⟨[(4, hashFundOutputID)], [], [], [], [], [], [(4, ⟨6, zeroHash⟩)], []⟩ 2 2
      (by decide) (by decide)⟩

/-- C8: for the designated genesis block, `addBlockDB` is independent of
the consensus child-target map (the lookup is not consulted), and a
committed run records the `RootDepth` sentinel as the target of the
block's height summary. -/
theorem claim8_genesis_root_target (g hgt : Nat) (cs₁ cs₂ : List (Hash × Target))
    (dbg tst : Bool) (env : Nat → Bool) (store : TxState) (b : Block) (s : TxState)
    (hg : b.id = g)
    (hc : addBlockDB ⟨g, hgt, cs₁⟩ dbg tst env store b = BlockResult.committed s) :
    addBlockDB ⟨g, hgt, cs₁⟩ dbg tst env store b = addBlockDB ⟨g, hgt, cs₂⟩ dbg tst env store b
    ∧ alGet s.heights hgt = some ⟨b.id, b.Timestamp, RootDepth, marshalLen b⟩ := by
  constructor
  · simp [addBlockDB, computeBlockTarget, hg]
  · simp only [addBlockDB] at hc
    rw [show computeBlockTarget ⟨g, hgt, cs₁⟩ dbg tst b = TargetOutcome.ok RootDepth from by
      simp [computeBlockTarget, hg]] at hc
    simp only at hc
    rcases h1 : addNewHash env
        (fun s c => putObject env c s
          (fun s => { s with blocks := alPut s.blocks b.id ⟨b, hgt⟩ }))
        hashBlock b.id store 0 with ⟨s1, c1, e1⟩
    rw [h1] at hc
    cases e1 with
    | some e => rw [andThen_some] at hc; simp at hc
    | none =>
    rw [andThen_none] at hc
    simp only [addHeight] at hc
    rcases putObject_cases env c1 s1
        (fun s => { s with
          heights := alPut s.heights hgt ⟨b.id, b.Timestamp, RootDepth, marshalLen b⟩ }) with h2 | h2
    · rw [h2, andThen_some] at hc
      simp at hc
    · rw [h2, andThen_none] at hc
      generalize hs2 : ({ s1 with
          heights := alPut s1.heights hgt ⟨b.id, b.Timestamp, RootDepth, marshalLen b⟩ } : TxState) = s2 at hc
      rcases h3 : addHashType env b.id hashBlock s2 (c1 + 1) with ⟨s3, c3, e3⟩
      rw [h3] at hc
      cases e3 with
      | some e => rw [andThen_some] at hc; simp at hc
      | none =>
      rw [andThen_none] at hc
      rcases h4 : forEachIdx (fun i payout s c =>
          (addAddress env payout.UnlockHash b.id s c).andThen
            (addNewOutput env (b.MinerPayoutID i) b.id))
          0 b.MinerPayouts s3 c3 with ⟨s4, c4, e4⟩
      rw [h4] at hc
      cases e4 with
      | some e => rw [andThen_some] at hc; simp at hc
      | none =>
      rw [andThen_none] at hc
      rcases h5 : forEachIdx (fun i txn s c =>
          (addNewHash env
              (fun s c => putObject env c s
                (fun s => { s with transactions := alPut s.transactions txn.txid ⟨b.id, i⟩ }))
              hashTransaction txn.txid s c).andThen (fun s c => addTransaction env txn s c))
          0 b.Transactions s4 c4 with ⟨s5, c5, e5⟩
      rw [h5] at hc
      cases e5 with
      | some e => simp at hc
      | none =>
      simp only at hc
      by_cases he : env c5 = true
      · simp [he] at hc
      · simp [he] at hc
        -- hc : s5 = s (or committed s5 = committed s reduced)
        have hh3 : s3.heights = s2.heights := by
          have h := addHashType_heights env b.id hashBlock s2 (c1 + 1)
          rw [h3] at h
          exact h
        have hh4 : s4.heights = s3.heights := by
          have h := forEachIdx_proj (fun st => st.heights)
            (fun i payout s c => (addAddress env payout.UnlockHash b.id s c).andThen
              (addNewOutput env (b.MinerPayoutID i) b.id))
            (fun i x s c => (andThen_proj (fun st => st.heights) _ _
              (fun s c => addNewOutput_heights env _ _ s c)).trans
              (addAddress_heights env _ _ s c)) 0 b.MinerPayouts s3 c3
          rw [h4] at h
          exact h
        have hh5 : s5.heights = s4.heights := by
          have h := forEachIdx_proj (fun st => st.heights)
            (fun i txn s c =>
              (addNewHash env
                  (fun s c => putObject env c s
                    (fun s => { s with
                      transactions := alPut s.transactions txn.txid ⟨b.id, i⟩ }))
                  hashTransaction txn.txid s c).andThen (fun s c => addTransaction env txn s c))
            (fun i x s c => (andThen_proj (fun st => st.heights) _ _
              (fun s c => addTransaction_heights env x s c)).trans
              (addNewHash_proj (fun st => st.heights) (fun _ _ => rfl) env
                (fun s c => putObject env c s
                  (fun s => { s with transactions := alPut s.transactions x.txid ⟨b.id, i⟩ }))
                hashTransaction x.txid s c
                (fun s c => putObject_proj (fun st => st.heights) env c s
                  (fun s => { s with transactions := alPut s.transactions x.txid ⟨b.id, i⟩ }) rfl)))
            0 b.Transactions s4 c4
          rw [h5] at h
          exact h
        have hs2h : s2.heights = alPut s1.heights hgt ⟨b.id, b.Timestamp, RootDepth, marshalLen b⟩ := by
          rw [← hs2]
        rw [← hc, hh5, hh4, hh3, hs2h]
        exact alGet_alPut_self _ _ _

/-- C8 witness: a committed run on a concrete genesis block (no payouts,
no transactions) records the RootDepth target at height 0, and the run is
unchanged when the consensus map is replaced. -/
theorem claim8_witness :
    ((⟨1, 0, 9, [], []⟩ : Block).id = 1
      ∧ addBlockDB ⟨1, 0, []⟩ false false noFail ⟨[], [], [], [], [], [], [], []⟩
          ⟨1, 0, 9, [], []⟩
        = BlockResult.committed ⟨[(1, hashBlock)], [], [(1, ⟨⟨1, 0, 9, [], []⟩, 0⟩)],
            [(0, ⟨1, 9, RootDepth, 1⟩)], [], [], [], []⟩)
    ∧ (addBlockDB ⟨1, 0, []⟩ false false noFail ⟨[], [], [], [], [], [], [], []⟩
          ⟨1, 0, 9, [], []⟩
        = addBlockDB ⟨1, 0, [(5, 7)]⟩ false false noFail ⟨[], [], [], [], [], [], [], []⟩
          ⟨1, 0, 9, [], []⟩
      ∧ alGet ([(0, (⟨1, 9, RootDepth, 1⟩ : ExplorerBlockData))]) 0
          = some ⟨1, 9, RootDepth, 1⟩) :=
  ⟨⟨rfl, by decide⟩,
    claim8_genesis_root_target 1 0 [] [(5, 7)] false false noFail
      ⟨[], [], [], [], [], [], [], []⟩ ⟨1, 0, 9, [], []⟩
      ⟨[(1, hashBlock)], [], [(1, ⟨⟨1, 0, 9, [], []⟩, 0⟩)],
        [(0, ⟨1, 9, RootDepth, 1⟩)], [], [], [], []⟩
      rfl (by decide)⟩

theorem alGet_filter_ne {K V : Type} [DecidableEq K] (m : List (K × V)) (k k' : K)
    (h : k' ≠ k) :
    alGet (m.filter (fun p => decide (p.1 ≠ k))) k' = alGet m k' := by
  induction m with
  | nil => rfl
  | cons a rest ih =>
    rcases a with ⟨ka, va⟩
    by_cases hk : ka = k
    · subst hk
      simp only [List.filter_cons]
      rw [show (decide ((ka, va).1 ≠ ka)) = false by simp]
      simp only [Bool.false_eq_true, if_false]
      rw [ih]
      rw [alGet, if_neg (fun hh => h hh.symm)]
    · simp only [List.filter_cons]
      rw [show (decide ((ka, va).1 ≠ k)) = true by simpa using hk]
      simp only [if_true]
      rw [alGet, alGet]
      by_cases hka : ka = k'
      · simp [hka]
      · simp only [hka, if_false, Bool.false_eq_true]
        exact ih

theorem alGet_alPut_ne {K V : Type} [DecidableEq K] (m : List (K × V)) (k k' : K) (v : V)
    (h : k' ≠ k) : alGet (alPut m k v) k' = alGet m k' := by
  unfold alPut
  rw [alGet, if_neg (fun hh => h hh.symm)]
  exact alGet_filter_ne m k k' h

theorem alPut_isSome {K V : Type} [DecidableEq K] (m : List (K × V)) (k k' : K) (v : V)
    (h : (alGet m k').isSome = true) : (alGet (alPut m k v) k').isSome = true := by
  by_cases hk : k' = k
  · subst hk
    rw [alGet_alPut_self]
    rfl
  · rw [alGet_alPut_ne m k k' v hk]
    exact h

theorem andThen_mono (P : TxState → Prop) (r : StepResult) (f : TxState → Nat → StepResult)
    (hr : P r.state) (hf : ∀ s c, P s → P ((f s c).state)) :
    P ((r.andThen f).state) := by
  rcases r with ⟨s1, c1, e1⟩
  cases e1 with
  | some e => exact hr
  | none => exact hf s1 c1 hr

theorem forEachIdx_mono {α : Type} (P : TxState → Prop)
    (f : Nat → α → TxState → Nat → StepResult)
    (hf : ∀ i x s c, P s → P ((f i x s c).state)) :
    ∀ (i : Nat) (xs : List α) (s : TxState) (c : Nat), P s → P ((forEachIdx f i xs s c).state) := by
  intro i xs
  induction xs generalizing i with
  | nil => intro s c hs; exact hs
  | cons x xs ih =>
    intro s c hs
    unfold forEachIdx
    rcases hfx : f i x s c with ⟨s1, c1, e1⟩
    have h1 : P s1 := by
      have h2 := hf i x s c hs
      rw [hfx] at h2
      exact h2
    cases e1 with
    | some e => simpa using h1
    | none =>
      simp only
      exact ih (i + 1) s1 c1 h1

theorem addAddress_siacoinOutputs (env : Nat → Bool) (a t : Hash) (s : TxState) (c : Nat) :
    ((addAddress env a t s c).state).siacoinOutputs = s.siacoinOutputs := by
  rcases addAddress_shape env a t s c with ⟨hx, ax, hs⟩
  rw [hs]

theorem addAddress_siafundOutputs (env : Nat → Bool) (a t : Hash) (s : TxState) (c : Nat) :
    ((addAddress env a t s c).state).siafundOutputs = s.siafundOutputs := by
  rcases addAddress_shape env a t s c with ⟨hx, ax, hs⟩
  rw [hs]

theorem addNewOutput_siafundOutputs (env : Nat → Bool) (oid t : Hash) (s : TxState) (c : Nat) :
    ((addNewOutput env oid t s c).state).siafundOutputs = s.siafundOutputs := by
  rcases addNewOutput_shape env oid t s c with ⟨hx, ox, hs⟩
  rw [hs]

theorem addHashType_siafundOutputs (env : Nat → Bool) (h t : Nat) (s : TxState) (c : Nat) :
    ((addHashType env h t s c).state).siafundOutputs = s.siafundOutputs := by
  rcases addHashType_shape env h t s c with ⟨hx, hs⟩
  rw [hs]

theorem addFcRevision_siafundOutputs (env : Nat → Bool) (fcid t : Hash) (s : TxState) (c : Nat) :
    ((addFcRevision env fcid t s c).state).siafundOutputs = s.siafundOutputs := by
  rcases addFcRevision_shape env fcid t s c with ⟨fx, hs⟩
  rw [hs]

theorem addFcProof_siafundOutputs (env : Nat → Bool) (fcid t : Hash) (s : TxState) (c : Nat) :
    ((addFcProof env fcid t s c).state).siafundOutputs = s.siafundOutputs := by
  rcases addFcProof_shape env fcid t s c with ⟨fx, hs⟩
  rw [hs]

theorem addSiafundInput_noFail_missing (oid t : Hash) (s : TxState) (c : Nat)
    (h : alGet s.siafundOutputs oid = none) :
    addSiafundInput noFail oid t s c = ⟨s, c + 1, some DBErr.ErrNilEntry⟩ := by
  simp [addSiafundInput, getObject, noFail, h]

theorem addNewHash_noFail_put (u : TxState → TxState) (t h : Nat) (s : TxState) (c : Nat) :
    addNewHash noFail (fun s c => putObject noFail c s u) t h s c
      = ⟨u { s with hashes := alPut s.hashes h t }, c + 2, none⟩ := by
  simp [addNewHash, addHashType_noFail, putObject_noFail]

theorem coinInputs_missing_prefix (oid txid : Hash) :
    ∀ (ins1 : List SiacoinInput) (i : Nat) (s : TxState) (c : Nat)
      (ins2 : List SiacoinInput),
      (∀ inp ∈ ins1, (alGet s.siacoinOutputs inp.ParentID).isSome = true) →
      alGet s.siacoinOutputs oid = none →
      ∃ s' c', forEachIdx (fun _ inp => addSiacoinInput noFail inp.ParentID txid) i
          (ins1 ++ ⟨oid⟩ :: ins2) s c = ⟨s', c', some DBErr.ErrNilEntry⟩ := by
  intro ins1
  induction ins1 with
  | nil =>
    intro i s c ins2 hall hmiss
    refine ⟨s, c + 1, ?_⟩
    simp [forEachIdx, addSiacoinInput_noFail_missing oid txid s c hmiss]
  | cons inp ins1x ih =>
    intro i s c ins2 hall hmiss
    have hiS : (alGet s.siacoinOutputs inp.ParentID).isSome = true := hall inp (by simp)
    rcases Option.isSome_iff_exists.mp hiS with ⟨ot, hot⟩
    have hstep := addSiacoinInput_noFail_found inp.ParentID txid s c ot hot
    have hne : oid ≠ inp.ParentID := by
      intro he
      rw [← he, hmiss] at hot
      cases hot
    have hmiss1 : alGet (alPut s.siacoinOutputs inp.ParentID ⟨ot.OutputTx, txid⟩) oid = none := by
      rw [alGet_alPut_ne _ _ _ _ hne]
      exact hmiss
    have hall1 : ∀ inpx ∈ ins1x,
        (alGet (alPut s.siacoinOutputs inp.ParentID ⟨ot.OutputTx, txid⟩) inpx.ParentID).isSome
          = true := by
      intro inpx hm
      exact alPut_isSome _ _ _ _ (hall inpx (by simp [hm]))
    obtain ⟨s', c', heq⟩ := ih (i + 1)
      { s with siacoinOutputs := alPut s.siacoinOutputs inp.ParentID ⟨ot.OutputTx, txid⟩ }
      (c + 2) ins2 hall1 hmiss1
    refine ⟨s', c', ?_⟩
    simp only [List.cons_append]
    unfold forEachIdx
    rw [hstep]
    simpa using heq

theorem coinInputs_all_ok (txid : Hash) :
    ∀ (ins : List SiacoinInput) (i : Nat) (s : TxState) (c : Nat),
      (∀ inp ∈ ins, (alGet s.siacoinOutputs inp.ParentID).isSome = true) →
      ∃ s' c', forEachIdx (fun _ inp => addSiacoinInput noFail inp.ParentID txid) i ins s c
          = ⟨s', c', none⟩
        ∧ s'.siafundOutputs = s.siafundOutputs
        ∧ s'.fileContracts = s.fileContracts := by
  intro ins
  induction ins with
  | nil =>
    intro i s c hall
    exact ⟨s, c, rfl, rfl, rfl⟩
  | cons inp insx ih =>
    intro i s c hall
    have hiS : (alGet s.siacoinOutputs inp.ParentID).isSome = true := hall inp (by simp)
    rcases Option.isSome_iff_exists.mp hiS with ⟨ot, hot⟩
    have hstep := addSiacoinInput_noFail_found inp.ParentID txid s c ot hot
    have hall1 : ∀ inpx ∈ insx,
        (alGet (alPut s.siacoinOutputs inp.ParentID ⟨ot.OutputTx, txid⟩) inpx.ParentID).isSome
          = true := by
      intro inpx hm
      exact alPut_isSome _ _ _ _ (hall inpx (by simp [hm]))
    obtain ⟨s', c', heq, hsf, hfc⟩ := ih (i + 1)
      { s with siacoinOutputs := alPut s.siacoinOutputs inp.ParentID ⟨ot.OutputTx, txid⟩ }
      (c + 2) hall1
    refine ⟨s', c', ?_, by simpa using hsf, by simpa using hfc⟩
    unfold forEachIdx
    rw [hstep]
    simpa using heq

theorem fundInputs_missing_prefix (foid txid : Hash) :
    ∀ (fins1 : List SiafundInput) (i : Nat) (s : TxState) (c : Nat)
      (fins2 : List SiafundInput),
      (∀ inp ∈ fins1, (alGet s.siafundOutputs inp.ParentID).isSome = true) →
      alGet s.siafundOutputs foid = none →
      ∃ s' c', forEachIdx (fun _ inp => addSiafundInput noFail inp.ParentID txid) i
          (fins1 ++ ⟨foid⟩ :: fins2) s c = ⟨s', c', some DBErr.ErrNilEntry⟩ := by
  intro fins1
  induction fins1 with
  | nil =>
    intro i s c fins2 hall hmiss
    refine ⟨s, c + 1, ?_⟩
    simp [forEachIdx, addSiafundInput_noFail_missing foid txid s c hmiss]
  | cons inp fins1x ih =>
    intro i s c fins2 hall hmiss
    have hiS : (alGet s.siafundOutputs inp.ParentID).isSome = true := hall inp (by simp)
    rcases Option.isSome_iff_exists.mp hiS with ⟨ot, hot⟩
    have hstep := addSiafundInput_noFail_found inp.ParentID txid s c ot hot
    have hne : foid ≠ inp.ParentID := by
      intro he
      rw [← he, hmiss] at hot
      cases hot
    have hmiss1 : alGet (alPut s.siafundOutputs inp.ParentID ⟨ot.OutputTx, txid⟩) foid = none := by
      rw [alGet_alPut_ne _ _ _ _ hne]
      exact hmiss
    have hall1 : ∀ inpx ∈ fins1x,
        (alGet (alPut s.siafundOutputs inp.ParentID ⟨ot.OutputTx, txid⟩) inpx.ParentID).isSome
          = true := by
      intro inpx hm
      exact alPut_isSome _ _ _ _ (hall inpx (by simp [hm]))
    obtain ⟨s', c', heq⟩ := ih (i + 1)
      { s with siafundOutputs := alPut s.siafundOutputs inp.ParentID ⟨ot.OutputTx, txid⟩ }
      (c + 2) fins2 hall1 hmiss1
    refine ⟨s', c', ?_⟩
    simp only [List.cons_append]
    unfold forEachIdx
    rw [hstep]
    simpa using heq

theorem scOutputsLoop_ok (txid : Hash) (scoid : Nat → Hash)
    (outs : List SiacoinOutput) (i : Nat) (s : TxState) (c : Nat) :
    ∃ s' c', forEachIdx (fun i output s c =>
        (addAddress noFail output.UnlockHash txid s c).andThen
          (addNewOutput noFail (scoid i) txid)) i outs s c = ⟨s', c', none⟩
      ∧ s'.siafundOutputs = s.siafundOutputs
      ∧ s'.fileContracts = s.fileContracts := by
  rcases hr : forEachIdx (fun i output s c =>
      (addAddress noFail output.UnlockHash txid s c).andThen
        (addNewOutput noFail (scoid i) txid)) i outs s c with ⟨s', c', e⟩
  have he := forEachIdx_err (fun i (output : SiacoinOutput) s c =>
      (addAddress noFail output.UnlockHash txid s c).andThen
        (addNewOutput noFail (scoid i) txid))
    (fun j y s c => andThen_err _ _ (addAddress_noFail_err _ _ _ _)
      (fun s c => by rw [addNewOutput_noFail])) i outs s c
  rw [hr] at he
  have hsf := forEachIdx_proj (fun st => st.siafundOutputs)
    (fun i (output : SiacoinOutput) s c =>
      (addAddress noFail output.UnlockHash txid s c).andThen
        (addNewOutput noFail (scoid i) txid))
    (fun j y s c => (andThen_proj (fun st => st.siafundOutputs) _ _
      (fun s c => addNewOutput_siafundOutputs noFail _ _ s c)).trans
      (addAddress_siafundOutputs noFail _ _ s c)) i outs s c
  rw [hr] at hsf
  have hfc := forEachIdx_proj (fun st => st.fileContracts)
    (fun i (output : SiacoinOutput) s c =>
      (addAddress noFail output.UnlockHash txid s c).andThen
        (addNewOutput noFail (scoid i) txid))
    (fun j y s c => (andThen_proj (fun st => st.fileContracts) _ _
      (fun s c => addNewOutput_fileContracts noFail _ _ s c)).trans
      (addAddress_fileContracts noFail _ _ s c)) i outs s c
  rw [hr] at hfc
  have he' : e = none := he
  subst he'
  exact ⟨s', c', hr, hsf, hfc⟩

theorem prfsLoop_ok (txid : Hash) :
    ∀ (prfs : List StorageProof) (i : Nat) (s : TxState) (c : Nat),
      (∀ p ∈ prfs, (alGet s.fileContracts p.ParentID).isSome = true) →
      ∃ s' c', forEachIdx (fun _ proof => addFcProof noFail proof.ParentID txid) i prfs s c
          = ⟨s', c', none⟩
        ∧ s'.siafundOutputs = s.siafundOutputs
        ∧ ∀ pid, (alGet s.fileContracts pid).isSome = true →
            (alGet s'.fileContracts pid).isSome = true := by
  intro prfs
  induction prfs with
  | nil =>
    intro i s c hall
    exact ⟨s, c, rfl, rfl, fun pid hp => hp⟩
  | cons pr prfsx ih =>
    intro i s c hall
    have hiS := hall pr (by simp)
    rcases Option.isSome_iff_exists.mp hiS with ⟨fi, hfi⟩
    have hstep := addFcProof_noFail_found pr.ParentID txid s c fi hfi
    have hall1 : ∀ p ∈ prfsx,
        (alGet (alPut s.fileContracts pr.ParentID
          ⟨fi.Contract, fi.Revisions, txid⟩) p.ParentID).isSome = true :=
      fun p hm => alPut_isSome _ _ _ _ (hall p (by simp [hm]))
    obtain ⟨s', c', heq, hsf, hmono⟩ := ih (i + 1)
      { s with
        fileContracts := alPut s.fileContracts pr.ParentID ⟨fi.Contract, fi.Revisions, txid⟩ }
      (c + 2) hall1
    refine ⟨s', c', ?_, by simpa using hsf, ?_⟩
    · unfold forEachIdx
      rw [hstep]
      simpa using heq
    · intro pid hp
      have h2 := alPut_isSome s.fileContracts pr.ParentID pid ⟨fi.Contract, fi.Revisions, txid⟩ hp
      exact hmono pid (by simpa using h2)

theorem payoutLoop_ok (b : Block) (oid : Hash) :
    ∀ (payouts : List SiacoinOutput) (j : Nat) (s : TxState) (c : Nat),
      (∀ k, j ≤ k → k < j + payouts.length → b.MinerPayoutID k ≠ oid) →
      ∃ s' c', forEachIdx (fun i payout s c =>
          (addAddress noFail payout.UnlockHash b.id s c).andThen
            (addNewOutput noFail (b.MinerPayoutID i) b.id)) j payouts s c = ⟨s', c', none⟩
        ∧ alGet s'.siacoinOutputs oid = alGet s.siacoinOutputs oid
        ∧ (∀ k, (alGet s.siacoinOutputs k).isSome = true →
            (alGet s'.siacoinOutputs k).isSome = true)
        ∧ s'.siafundOutputs = s.siafundOutputs
        ∧ s'.fileContracts = s.fileContracts := by
  intro payouts
  induction payouts with
  | nil =>
    intro j s c hpay
    exact ⟨s, c, rfl, rfl, fun k hk => hk, rfl, rfl⟩
  | cons po pos ih =>
    intro j s c hpay
    rcases ha : addAddress noFail po.UnlockHash b.id s c with ⟨sa, ca, ea⟩
    have hea : ea = none := by
      have h := addAddress_noFail_err po.UnlockHash b.id s c
      rw [ha] at h
      exact h
    subst hea
    have hsc : sa.siacoinOutputs = s.siacoinOutputs := by
      have h := addAddress_siacoinOutputs noFail po.UnlockHash b.id s c
      rw [ha] at h
      exact h
    have hout := addNewOutput_noFail (b.MinerPayoutID j) b.id sa ca
    have hne : b.MinerPayoutID j ≠ oid := hpay j (le_refl j) (by simp)
    have hpay1 : ∀ k, j + 1 ≤ k → k < j + 1 + pos.length → b.MinerPayoutID k ≠ oid := by
      intro k h1 h2
      refine hpay k (by omega) ?_
      simp only [List.length_cons]
      omega
    have hsfa : sa.siafundOutputs = s.siafundOutputs := by
      have h := addAddress_siafundOutputs noFail po.UnlockHash b.id s c
      rw [ha] at h
      exact h
    have hfca : sa.fileContracts = s.fileContracts := by
      have h := addAddress_fileContracts noFail po.UnlockHash b.id s c
      rw [ha] at h
      exact h
    obtain ⟨s', c', heq, hoid', hmono', hsf', hfc'⟩ := ih (j + 1)
      { sa with
        hashes := alPut sa.hashes (b.MinerPayoutID j) hashCoinOutputID,
        siacoinOutputs := alPut sa.siacoinOutputs (b.MinerPayoutID j) ⟨b.id, zeroHash⟩ }
      (ca + 2) hpay1
    refine ⟨s', c', ?_, ?_, ?_, ?_, ?_⟩
    · unfold forEachIdx
      rw [ha, andThen_none, hout]
      simpa using heq
    · rw [hoid']
      simpa using (alGet_alPut_ne sa.siacoinOutputs (b.MinerPayoutID j) oid
        ⟨b.id, zeroHash⟩ (fun hh => hne hh.symm)).trans (by rw [hsc])
    · intro k hk
      refine hmono' k ?_
      simpa using alPut_isSome sa.siacoinOutputs (b.MinerPayoutID j) k ⟨b.id, zeroHash⟩
        (by rw [hsc]; exact hk)
    · exact hsf'.trans hsfa
    · exact hfc'.trans hfca

theorem fcsLoop_ok (txid : Hash) (fcid : Nat → Hash) :
    ∀ (fcs : List FileContract) (i : Nat) (s : TxState) (c : Nat),
      ∃ s' c', forEachIdx (fun i contract s c =>
          (addNewHash noFail (fun s c => putObject noFail c s
              (fun s => { s with
                fileContracts := alPut s.fileContracts (fcid i) ⟨txid, [], zeroHash⟩ }))
              hashFilecontract (fcid i) s c).andThen (fun s c =>
          (forEachIdx (fun j output s c =>
              (addAddress noFail output.UnlockHash txid s c).andThen
                (addNewOutput noFail (storageProofOutputID (fcid i) true j) txid))
              0 contract.ValidProofOutputs s c).andThen (fun s c =>
          (forEachIdx (fun j output s c =>
              (addAddress noFail output.UnlockHash txid s c).andThen
                (addNewOutput noFail (storageProofOutputID (fcid i) false j) txid))
              0 contract.MissedProofOutputs s c).andThen (fun s c =>
          addAddress noFail contract.UnlockHash txid s c))))
          i fcs s c = ⟨s', c', none⟩
        ∧ s'.siafundOutputs = s.siafundOutputs
        ∧ ∀ pid, (alGet s.fileContracts pid).isSome = true →
            (alGet s'.fileContracts pid).isSome = true := by
  intro fcs
  induction fcs with
  | nil =>
    intro i s c
    exact ⟨s, c, rfl, rfl, fun pid hp => hp⟩
  | cons fc fcsx ih =>
    intro i s c
    have hcreate := addNewHash_noFail_put
      (fun s => { s with fileContracts := alPut s.fileContracts (fcid i) ⟨txid, [], zeroHash⟩ })
      hashFilecontract (fcid i) s c
    obtain ⟨s2, c2, hv, hsf2, hfc2⟩ := scOutputsLoop_ok txid
      (storageProofOutputID (fcid i) true) fc.ValidProofOutputs 0
      { s with
        hashes := alPut s.hashes (fcid i) hashFilecontract,
        fileContracts := alPut s.fileContracts (fcid i) ⟨txid, [], zeroHash⟩ } (c + 2)
    obtain ⟨s3, c3, hm, hsf3, hfc3⟩ := scOutputsLoop_ok txid
      (storageProofOutputID (fcid i) false) fc.MissedProofOutputs 0 s2 c2
    rcases hu : addAddress noFail fc.UnlockHash txid s3 c3 with ⟨s4, c4, e4⟩
    have he4 : e4 = none := by
      have h := addAddress_noFail_err fc.UnlockHash txid s3 c3
      rw [hu] at h
      exact h
    subst he4
    have hsf4 : s4.siafundOutputs = s3.siafundOutputs := by
      have h := addAddress_siafundOutputs noFail fc.UnlockHash txid s3 c3
      rw [hu] at h
      exact h
    have hfc4 : s4.fileContracts = s3.fileContracts := by
      have h := addAddress_fileContracts noFail fc.UnlockHash txid s3 c3
      rw [hu] at h
      exact h
    obtain ⟨s', c', heq, hsf', hmono'⟩ := ih (i + 1) s4 c4
    refine ⟨s', c', ?_, ?_, ?_⟩
    · unfold forEachIdx
      simp only [hcreate, andThen_none, hv, hm, hu]
      simpa using heq
    · rw [hsf', hsf4, hsf3, hsf2]
    · intro pid hp
      refine hmono' pid ?_
      rw [hfc4, hfc3, hfc2]
      simpa using alPut_isSome s.fileContracts (fcid i) pid ⟨txid, [], zeroHash⟩ hp

theorem revLoop_ok (txid : Hash) :
    ∀ (revs : List FileContractRevision) (i : Nat) (s : TxState) (c : Nat),
      (∀ r ∈ revs, (alGet s.fileContracts r.ParentID).isSome = true) →
      ∃ s' c', forEachIdx (fun _ revision s c =>
          (addFcRevision noFail revision.ParentID txid s c).andThen (fun s c =>
          (forEachIdx (fun i output s c =>
              (addAddress noFail output.UnlockHash txid s c).andThen
                (addNewOutput noFail (storageProofOutputID revision.ParentID true i) txid))
              0 revision.NewValidProofOutputs s c).andThen (fun s c =>
          (forEachIdx (fun i output s c =>
              (addAddress noFail output.UnlockHash txid s c).andThen
                (addNewOutput noFail (storageProofOutputID revision.ParentID false i) txid))
              0 revision.NewMissedProofOutputs s c).andThen (fun s c =>
          discardErr (addAddress noFail revision.NewUnlockHash txid s c)))))
          i revs s c = ⟨s', c', none⟩
        ∧ s'.siafundOutputs = s.siafundOutputs
        ∧ ∀ pid, (alGet s.fileContracts pid).isSome = true →
            (alGet s'.fileContracts pid).isSome = true := by
  intro revs
  induction revs with
  | nil =>
    intro i s c hall
    exact ⟨s, c, rfl, rfl, fun pid hp => hp⟩
  | cons r revsx ih =>
    intro i s c hall
    have hiS := hall r (by simp)
    rcases Option.isSome_iff_exists.mp hiS with ⟨fi, hfi⟩
    have hstep := addFcRevision_noFail_found r.ParentID txid s c fi hfi
    obtain ⟨s2, c2, hv, hsf2, hfc2⟩ := scOutputsLoop_ok txid
      (storageProofOutputID r.ParentID true) r.NewValidProofOutputs 0
      { s with
        fileContracts := alPut s.fileContracts r.ParentID
          ⟨fi.Contract, fi.Revisions ++ [txid], fi.Proof⟩ } (c + 2)
    obtain ⟨s3, c3, hm, hsf3, hfc3⟩ := scOutputsLoop_ok txid
      (storageProofOutputID r.ParentID false) r.NewMissedProofOutputs 0 s2 c2
    rcases hu : addAddress noFail r.NewUnlockHash txid s3 c3 with ⟨s4, c4, e4⟩
    have hsf4 : s4.siafundOutputs = s3.siafundOutputs := by
      have h := addAddress_siafundOutputs noFail r.NewUnlockHash txid s3 c3
      rw [hu] at h
      exact h
    have hfc4 : s4.fileContracts = s3.fileContracts := by
      have h := addAddress_fileContracts noFail r.NewUnlockHash txid s3 c3
      rw [hu] at h
      exact h
    have hall1 : ∀ rx ∈ revsx, (alGet s4.fileContracts rx.ParentID).isSome = true := by
      intro rx hm2
      rw [hfc4, hfc3, hfc2]
      simpa using alPut_isSome s.fileContracts r.ParentID rx.ParentID
        ⟨fi.Contract, fi.Revisions ++ [txid], fi.Proof⟩ (hall rx (by simp [hm2]))
    obtain ⟨s', c', heq, hsf', hmono'⟩ := ih (i + 1) s4 c4 hall1
    refine ⟨s', c', ?_, ?_, ?_⟩
    · unfold forEachIdx
      simp only [hstep, andThen_none, hv, hm, hu, discardErr]
      simpa using heq
    · rw [hsf', hsf4, hsf3, hsf2]
    · intro pid hp
      refine hmono' pid ?_
      rw [hfc4, hfc3, hfc2]
      simpa using alPut_isSome s.fileContracts r.ParentID pid
        ⟨fi.Contract, fi.Revisions ++ [txid], fi.Proof⟩ hp

theorem forEachIdx_cons {α : Type} (f : Nat → α → TxState → Nat → StepResult)
    (i : Nat) (x : α) (xs : List α) (s : TxState) (c : Nat) :
    forEachIdx f i (x :: xs) s c
      = match f i x s c with
        | ⟨s1, c1, some e⟩ => ⟨s1, c1, some e⟩
        | ⟨s1, c1, none⟩ => forEachIdx f (i + 1) xs s1 c1 := rfl

theorem forEachIdx_append_ok {α : Type} (f : Nat → α → TxState → Nat → StepResult) :
    ∀ (xs : List α) (i : Nat) (s : TxState) (c : Nat) (ys : List α) (s' : TxState) (c' : Nat),
      forEachIdx f i xs s c = ⟨s', c', none⟩ →
      forEachIdx f i (xs ++ ys) s c = forEachIdx f (i + xs.length) ys s' c' := by
  intro xs
  induction xs with
  | nil =>
    intro i s c ys s' c' h
    rw [forEachIdx_nil] at h
    injection h with hs hc he
    subst hs
    subst hc
    simp
  | cons x xsx ih =>
    intro i s c ys s' c' h
    rw [forEachIdx_cons] at h
    rw [show (x :: xsx) ++ ys = x :: (xsx ++ ys) from rfl, forEachIdx_cons]
    rcases hfx : f i x s c with ⟨sx, cx, ex⟩
    rw [hfx] at h
    cases ex with
    | some e => simp at h
    | none =>
      simp only at h ⊢
      rw [ih (i + 1) sx cx ys s' c' h]
      rw [show i + 1 + xsx.length = i + (x :: xsx).length from by
        simp only [List.length_cons]
        omega]

theorem payoutLoop_frame (b : Block) (payouts : List SiacoinOutput) (j : Nat)
    (s : TxState) (c : Nat) :
    ∃ s' c', forEachIdx (fun i payout s c =>
        (addAddress noFail payout.UnlockHash b.id s c).andThen
          (addNewOutput noFail (b.MinerPayoutID i) b.id)) j payouts s c = ⟨s', c', none⟩
      ∧ (∀ k, (alGet s.siacoinOutputs k).isSome = true →
          (alGet s'.siacoinOutputs k).isSome = true)
      ∧ s'.siafundOutputs = s.siafundOutputs
      ∧ s'.fileContracts = s.fileContracts := by
  rcases hr : forEachIdx (fun i payout s c =>
      (addAddress noFail payout.UnlockHash b.id s c).andThen
        (addNewOutput noFail (b.MinerPayoutID i) b.id)) j payouts s c with ⟨s', c', e⟩
  have he := forEachIdx_err (fun i (payout : SiacoinOutput) s c =>
      (addAddress noFail payout.UnlockHash b.id s c).andThen
        (addNewOutput noFail (b.MinerPayoutID i) b.id))
    (fun i x s c => andThen_err _ _ (addAddress_noFail_err _ _ _ _)
      (fun s c => by rw [addNewOutput_noFail])) j payouts s c
  rw [hr] at he
  have hsf := forEachIdx_proj (fun st => st.siafundOutputs)
    (fun i (payout : SiacoinOutput) s c =>
      (addAddress noFail payout.UnlockHash b.id s c).andThen
        (addNewOutput noFail (b.MinerPayoutID i) b.id))
    (fun i x s c => (andThen_proj (fun st => st.siafundOutputs) _ _
      (fun s c => addNewOutput_siafundOutputs noFail _ _ s c)).trans
      (addAddress_siafundOutputs noFail _ _ s c)) j payouts s c
  rw [hr] at hsf
  have hfc := forEachIdx_proj (fun st => st.fileContracts)
    (fun i (payout : SiacoinOutput) s c =>
      (addAddress noFail payout.UnlockHash b.id s c).andThen
        (addNewOutput noFail (b.MinerPayoutID i) b.id))
    (fun i x s c => (andThen_proj (fun st => st.fileContracts) _ _
      (fun s c => addNewOutput_fileContracts noFail _ _ s c)).trans
      (addAddress_fileContracts noFail _ _ s c)) j payouts s c
  rw [hr] at hfc
  have he' : e = none := he
  subst he'
  refine ⟨s', c', hr, ?_, hsf, hfc⟩
  intro k hk
  have hm := forEachIdx_mono (fun st => (alGet st.siacoinOutputs k).isSome = true)
    (fun i (payout : SiacoinOutput) s c =>
      (addAddress noFail payout.UnlockHash b.id s c).andThen
        (addNewOutput noFail (b.MinerPayoutID i) b.id))
    (fun i x s c hs => andThen_mono (fun st => (alGet st.siacoinOutputs k).isSome = true) _ _
      (by
        simp only
        rw [addAddress_siacoinOutputs noFail x.UnlockHash b.id s c]
        exact hs)
      (fun s c hs2 => by
        simp only
        rw [addNewOutput_noFail]
        simpa using alPut_isSome s.siacoinOutputs (b.MinerPayoutID i) k ⟨b.id, zeroHash⟩ hs2))
    j payouts s c hk
  rw [hr] at hm
  exact hm

theorem addTransaction_missing_coin (oid : Hash) (tx : Transaction)
    (ins1 ins2 : List SiacoinInput) (s : TxState) (c : Nat)
    (hins : tx.SiacoinInputs = ins1 ++ ⟨oid⟩ :: ins2)
    (hall : ∀ inp ∈ ins1, (alGet s.siacoinOutputs inp.ParentID).isSome = true)
    (hmiss : alGet s.siacoinOutputs oid = none) :
    ∃ s' c', addTransaction noFail tx s c = ⟨s', c', some DBErr.ErrNilEntry⟩ := by
  obtain ⟨s1, c1, heq⟩ := coinInputs_missing_prefix oid tx.txid ins1 0 s c ins2 hall hmiss
  refine ⟨s1, c1, ?_⟩
  simp only [addTransaction, forEach, hins, heq, andThen_some]

theorem addTransaction_missing_fund (foid : Hash) (tx : Transaction)
    (fins1 fins2 : List SiafundInput) (s : TxState) (c : Nat)
    (hfins : tx.SiafundInputs = fins1 ++ ⟨foid⟩ :: fins2)
    (hcoins : ∀ inp ∈ tx.SiacoinInputs, (alGet s.siacoinOutputs inp.ParentID).isSome = true)
    (hrevs : ∀ r ∈ tx.FileContractRevisions, (alGet s.fileContracts r.ParentID).isSome = true)
    (hprfs : ∀ p ∈ tx.StorageProofs, (alGet s.fileContracts p.ParentID).isSome = true)
    (hfall : ∀ inp ∈ fins1, (alGet s.siafundOutputs inp.ParentID).isSome = true)
    (hfmiss : alGet s.siafundOutputs foid = none) :
    ∃ s' c', addTransaction noFail tx s c = ⟨s', c', some DBErr.ErrNilEntry⟩ := by
  obtain ⟨s1, c1, h1, hsf1, hfc1⟩ := coinInputs_all_ok tx.txid tx.SiacoinInputs 0 s c hcoins
  obtain ⟨s2, c2, h2, hsf2, hfc2⟩ := scOutputsLoop_ok tx.txid tx.SiacoinOutputID
    tx.SiacoinOutputs 0 s1 c1
  obtain ⟨s3, c3, h3, hsf3, hmfc3⟩ := fcsLoop_ok tx.txid tx.FileContractID
    tx.FileContracts 0 s2 c2
  have hall3 : ∀ r ∈ tx.FileContractRevisions, (alGet s3.fileContracts r.ParentID).isSome = true := by
    intro r hm
    refine hmfc3 r.ParentID ?_
    rw [hfc2, hfc1]
    exact hrevs r hm
  obtain ⟨s4, c4, h4, hsf4, hmfc4⟩ := revLoop_ok tx.txid tx.FileContractRevisions 0 s3 c3 hall3
  have hall4 : ∀ p ∈ tx.StorageProofs, (alGet s4.fileContracts p.ParentID).isSome = true := by
    intro p hm
    refine hmfc4 p.ParentID (hmfc3 p.ParentID ?_)
    rw [hfc2, hfc1]
    exact hprfs p hm
  obtain ⟨s5, c5, h5, hsf5, hmfc5⟩ := prfsLoop_ok tx.txid tx.StorageProofs 0 s4 c4 hall4
  have hsfeq : s5.siafundOutputs = s.siafundOutputs := by
    rw [hsf5, hsf4, hsf3, hsf2, hsf1]
  have hfall5 : ∀ inp ∈ fins1, (alGet s5.siafundOutputs inp.ParentID).isSome = true := by
    intro inp hm
    rw [hsfeq]
    exact hfall inp hm
  have hfmiss5 : alGet s5.siafundOutputs foid = none := by
    rw [hsfeq]
    exact hfmiss
  obtain ⟨s6, c6, h6⟩ := fundInputs_missing_prefix foid tx.txid fins1 0 s5 c5 fins2
    hfall5 hfmiss5
  refine ⟨s6, c6, ?_⟩
  simp only [addTransaction, forEach, hfins, h1, h2, h3, h4, h5, h6, andThen_none, andThen_some]

theorem txnLoop_missing_coin (bid oid : Hash) (tx : Transaction)
    (ins1 ins2 : List SiacoinInput) (txns1 txns2 : List Transaction)
    (sP : TxState) (cP : Nat) (sMid : TxState) (cMid : Nat)
    (hins : tx.SiacoinInputs = ins1 ++ ⟨oid⟩ :: ins2)
    (hmid : forEachIdx (fun i txn s c =>
        (addNewHash noFail (fun s c => putObject noFail c s
            (fun s => { s with transactions := alPut s.transactions txn.txid ⟨bid, i⟩ }))
            hashTransaction txn.txid s c).andThen (fun s c =>
        addTransaction noFail txn s c)) 0 txns1 sP cP = ⟨sMid, cMid, none⟩)
    (hall : ∀ inp ∈ ins1, (alGet sMid.siacoinOutputs inp.ParentID).isSome = true)
    (hmiss : alGet sMid.siacoinOutputs oid = none) :
    ∃ s' c', forEachIdx (fun i txn s c =>
        (addNewHash noFail (fun s c => putObject noFail c s
            (fun s => { s with transactions := alPut s.transactions txn.txid ⟨bid, i⟩ }))
            hashTransaction txn.txid s c).andThen (fun s c =>
        addTransaction noFail txn s c)) 0 (txns1 ++ tx :: txns2) sP cP
      = ⟨s', c', some DBErr.ErrNilEntry⟩ := by
  have happ := forEachIdx_append_ok (fun i txn s c =>
      (addNewHash noFail (fun s c => putObject noFail c s
          (fun s => { s with transactions := alPut s.transactions txn.txid ⟨bid, i⟩ }))
          hashTransaction txn.txid s c).andThen (fun s c =>
      addTransaction noFail txn s c)) txns1 0 sP cP (tx :: txns2) sMid cMid hmid
  have hput := addNewHash_noFail_put
    (fun s => { s with transactions := alPut s.transactions tx.txid ⟨bid, 0 + txns1.length⟩ })
    hashTransaction tx.txid sMid cMid
  obtain ⟨s', c', htx⟩ := addTransaction_missing_coin oid tx ins1 ins2
    { sMid with
      hashes := alPut sMid.hashes tx.txid hashTransaction,
      transactions := alPut sMid.transactions tx.txid ⟨bid, 0 + txns1.length⟩ }
    (cMid + 2) hins (by simpa using hall) (by simpa using hmiss)
  refine ⟨s', c', ?_⟩
  rw [happ]
  unfold forEachIdx
  simp only [hput, andThen_none, htx]

theorem txnLoop_missing_fund (bid foid : Hash) (tx : Transaction)
    (fins1 fins2 : List SiafundInput) (txns1 txns2 : List Transaction)
    (sP : TxState) (cP : Nat) (sMid : TxState) (cMid : Nat)
    (hfins : tx.SiafundInputs = fins1 ++ ⟨foid⟩ :: fins2)
    (hmid : forEachIdx (fun i txn s c =>
        (addNewHash noFail (fun s c => putObject noFail c s
            (fun s => { s with transactions := alPut s.transactions txn.txid ⟨bid, i⟩ }))
            hashTransaction txn.txid s c).andThen (fun s c =>
        addTransaction noFail txn s c)) 0 txns1 sP cP = ⟨sMid, cMid, none⟩)
    (hcoins : ∀ inp ∈ tx.SiacoinInputs, (alGet sMid.siacoinOutputs inp.ParentID).isSome = true)
    (hrevs : ∀ r ∈ tx.FileContractRevisions, (alGet sMid.fileContracts r.ParentID).isSome = true)
    (hprfs : ∀ p ∈ tx.StorageProofs, (alGet sMid.fileContracts p.ParentID).isSome = true)
    (hfall : ∀ inp ∈ fins1, (alGet sMid.siafundOutputs inp.ParentID).isSome = true)
    (hfmiss : alGet sMid.siafundOutputs foid = none) :
    ∃ s' c', forEachIdx (fun i txn s c =>
        (addNewHash noFail (fun s c => putObject noFail c s
            (fun s => { s with transactions := alPut s.transactions txn.txid ⟨bid, i⟩ }))
            hashTransaction txn.txid s c).andThen (fun s c =>
        addTransaction noFail txn s c)) 0 (txns1 ++ tx :: txns2) sP cP
      = ⟨s', c', some DBErr.ErrNilEntry⟩ := by
  have happ := forEachIdx_append_ok (fun i txn s c =>
      (addNewHash noFail (fun s c => putObject noFail c s
          (fun s => { s with transactions := alPut s.transactions txn.txid ⟨bid, i⟩ }))
          hashTransaction txn.txid s c).andThen (fun s c =>
      addTransaction noFail txn s c)) txns1 0 sP cP (tx :: txns2) sMid cMid hmid
  have hput := addNewHash_noFail_put
    (fun s => { s with transactions := alPut s.transactions tx.txid ⟨bid, 0 + txns1.length⟩ })
    hashTransaction tx.txid sMid cMid
  obtain ⟨s', c', htx⟩ := addTransaction_missing_fund foid tx fins1 fins2
    { sMid with
      hashes := alPut sMid.hashes tx.txid hashTransaction,
      transactions := alPut sMid.transactions tx.txid ⟨bid, 0 + txns1.length⟩ }
    (cMid + 2) hfins (by simpa using hcoins) (by simpa using hrevs) (by simpa using hprfs)
    (by simpa using hfall) (by simpa using hfmiss)
  refine ⟨s', c', ?_⟩
  rw [happ]
  unfold forEachIdx
  simp only [hput, andThen_none, htx]

theorem addBlockDB_missing_coin (be : BlockExplorer) (debug testing : Bool)
    (b : Block) (store : TxState) (tgt : Target) (oid : Hash) (tx : Transaction)
    (ins1 ins2 : List SiacoinInput) (txnsR : List Transaction)
    (htgt : computeBlockTarget be debug testing b = TargetOutcome.ok tgt)
    (htxs : b.Transactions = tx :: txnsR)
    (hins : tx.SiacoinInputs = ins1 ++ ⟨oid⟩ :: ins2)
    (hpay : ∀ k, k < b.MinerPayouts.length → b.MinerPayoutID k ≠ oid)
    (hmiss : alGet store.siacoinOutputs oid = none)
    (hall : ∀ inp ∈ ins1, (alGet store.siacoinOutputs inp.ParentID).isSome = true) :
    addBlockDB be debug testing noFail store b = BlockResult.failed DBErr.ErrNilEntry := by
  have hput1 := addNewHash_noFail_put
    (fun s => { s with blocks := alPut s.blocks b.id ⟨b, be.blockchainHeight⟩ })
    hashBlock b.id store 0
  have h2 := addHeight_noFail be.blockchainHeight ⟨b.id, b.Timestamp, tgt, marshalLen b⟩
    { store with
      hashes := alPut store.hashes b.id hashBlock,
      blocks := alPut store.blocks b.id ⟨b, be.blockchainHeight⟩ } 2
  have h3 := addHashType_noFail b.id hashBlock
    { store with
      hashes := alPut store.hashes b.id hashBlock,
      blocks := alPut store.blocks b.id ⟨b, be.blockchainHeight⟩,
      heights := alPut store.heights be.blockchainHeight
        ⟨b.id, b.Timestamp, tgt, marshalLen b⟩ } 3
  obtain ⟨sp, cp, hploop, hoidP, hmonoP, hsfP, hfcP⟩ := payoutLoop_ok b oid b.MinerPayouts 0
    { store with
      hashes := alPut (alPut store.hashes b.id hashBlock) b.id hashBlock,
      blocks := alPut store.blocks b.id ⟨b, be.blockchainHeight⟩,
      heights := alPut store.heights be.blockchainHeight
        ⟨b.id, b.Timestamp, tgt, marshalLen b⟩ } 4
    (fun k _ hk2 => hpay k (by simpa using hk2))
  have hallSp : ∀ inp ∈ ins1, (alGet sp.siacoinOutputs inp.ParentID).isSome = true := by
    intro inp hm
    exact hmonoP inp.ParentID (by simpa using hall inp hm)
  have hmissSp : alGet sp.siacoinOutputs oid = none := by
    rw [hoidP]
    simpa using hmiss
  obtain ⟨sEnd, cEnd, hloop⟩ := txnLoop_missing_coin b.id oid tx ins1 ins2 [] txnsR
    sp cp sp cp hins (forEachIdx_nil _ 0 sp cp) hallSp hmissSp
  simp only [List.nil_append] at hloop
  simp only [addBlockDB]
  rw [htgt]
  simp only
  simp only [htxs, hput1, h2, h3, hploop, hloop, andThen_none]

theorem addBlockDB_missing_fund (be : BlockExplorer) (debug testing : Bool)
    (b : Block) (store : TxState) (tgt : Target) (foid : Hash) (tx : Transaction)
    (fins1 fins2 : List SiafundInput) (txnsR : List Transaction)
    (htgt : computeBlockTarget be debug testing b = TargetOutcome.ok tgt)
    (htxs : b.Transactions = tx :: txnsR)
    (hfins : tx.SiafundInputs = fins1 ++ ⟨foid⟩ :: fins2)
    (hcoins : ∀ inp ∈ tx.SiacoinInputs, (alGet store.siacoinOutputs inp.ParentID).isSome = true)
    (hrevs : ∀ r ∈ tx.FileContractRevisions, (alGet store.fileContracts r.ParentID).isSome = true)
    (hprfs : ∀ p ∈ tx.StorageProofs, (alGet store.fileContracts p.ParentID).isSome = true)
    (hfall : ∀ inp ∈ fins1, (alGet store.siafundOutputs inp.ParentID).isSome = true)
    (hfmiss : alGet store.siafundOutputs foid = none) :
    addBlockDB be debug testing noFail store b = BlockResult.failed DBErr.ErrNilEntry := by
  have hput1 := addNewHash_noFail_put
    (fun s => { s with blocks := alPut s.blocks b.id ⟨b, be.blockchainHeight⟩ })
    hashBlock b.id store 0
  have h2 := addHeight_noFail be.blockchainHeight ⟨b.id, b.Timestamp, tgt, marshalLen b⟩
    { store with
      hashes := alPut store.hashes b.id hashBlock,
      blocks := alPut store.blocks b.id ⟨b, be.blockchainHeight⟩ } 2
  have h3 := addHashType_noFail b.id hashBlock
    { store with
      hashes := alPut store.hashes b.id hashBlock,
      blocks := alPut store.blocks b.id ⟨b, be.blockchainHeight⟩,
      heights := alPut store.heights be.blockchainHeight
        ⟨b.id, b.Timestamp, tgt, marshalLen b⟩ } 3
  obtain ⟨sp, cp, hploop, hmonoP, hsfP, hfcP⟩ := payoutLoop_frame b b.MinerPayouts 0
    { store with
      hashes := alPut (alPut store.hashes b.id hashBlock) b.id hashBlock,
      blocks := alPut store.blocks b.id ⟨b, be.blockchainHeight⟩,
      heights := alPut store.heights be.blockchainHeight
        ⟨b.id, b.Timestamp, tgt, marshalLen b⟩ } 4
  have hcoinsSp : ∀ inp ∈ tx.SiacoinInputs, (alGet sp.siacoinOutputs inp.ParentID).isSome = true := by
    intro inp hm
    exact hmonoP inp.ParentID (by simpa using hcoins inp hm)
  have hrevsSp : ∀ r ∈ tx.FileContractRevisions, (alGet sp.fileContracts r.ParentID).isSome = true := by
    intro r hm
    rw [hfcP]
    simpa using hrevs r hm
  have hprfsSp : ∀ p ∈ tx.StorageProofs, (alGet sp.fileContracts p.ParentID).isSome = true := by
    intro p hm
    rw [hfcP]
    simpa using hprfs p hm
  have hfallSp : ∀ inp ∈ fins1, (alGet sp.siafundOutputs inp.ParentID).isSome = true := by
    intro inp hm
    rw [hsfP]
    simpa using hfall inp hm
  have hfmissSp : alGet sp.siafundOutputs foid = none := by
    rw [hsfP]
    simpa using hfmiss
  obtain ⟨sEnd, cEnd, hloop⟩ := txnLoop_missing_fund b.id foid tx fins1 fins2 [] txnsR
    sp cp sp cp hfins (forEachIdx_nil _ 0 sp cp) hcoinsSp hrevsSp hprfsSp hfallSp hfmissSp
  simp only [List.nil_append] at hloop
  simp only [addBlockDB]
  rw [htgt]
  simp only
  simp only [htxs, hput1, h2, h3, hploop, hloop, andThen_none]

/-- C5: spending a coin (or fund) input whose referenced output record is
absent fails with `ErrNilEntry` (the Not-Found error) at the input step,
for an arbitrary store (conjuncts 1-2); the error propagates out of
`addTransaction` with the missing input at an arbitrary position of the
input list, behind arbitrary earlier spendable inputs and — for the fund
case — behind the transaction's entire coin-input, coin-output, contract,
revision and storage-proof processing (conjuncts 3-4); it propagates
through the block's transaction loop with the failing transaction at an
arbitrary position, after an arbitrary successfully processed prefix
(conjunct 5); and for any block whose target determination succeeds,
whose miner payouts avoid the missing id, and whose transaction list
starts with the failing transaction, `addBlockDB` returns `ErrNilEntry`
before reaching `Commit`, so the visible store is unchanged — the block's
bolt transaction commits nothing (conjuncts 6-7: coin and fund case). -/
theorem claim5_spend_missing_output
    (oid foid txid bid : Hash) (s0 : TxState) (c0 : Nat)
    (tx tx2 : Transaction)
    (ins1 ins2 : List SiacoinInput) (fins1 fins2 : List SiafundInput)
    (txns1 txns2 txnsR txnsR2 : List Transaction)
    (sP sMid : TxState) (cP cMid : Nat)
    (be : BlockExplorer) (debug testing : Bool) (b b2 : Block)
    (store : TxState) (tgt tgt2 : Target)
    (hmiss0 : alGet s0.siacoinOutputs oid = none)
    (hfmiss0 : alGet s0.siafundOutputs foid = none)
    (hins : tx.SiacoinInputs = ins1 ++ ⟨oid⟩ :: ins2)
    (hall1 : ∀ inp ∈ ins1, (alGet s0.siacoinOutputs inp.ParentID).isSome = true)
    (hfins : tx2.SiafundInputs = fins1 ++ ⟨foid⟩ :: fins2)
    (hcoins2 : ∀ inp ∈ tx2.SiacoinInputs, (alGet s0.siacoinOutputs inp.ParentID).isSome = true)
    (hrevs2 : ∀ r ∈ tx2.FileContractRevisions, (alGet s0.fileContracts r.ParentID).isSome = true)
    (hprfs2 : ∀ p ∈ tx2.StorageProofs, (alGet s0.fileContracts p.ParentID).isSome = true)
    (hfall2 : ∀ inp ∈ fins1, (alGet s0.siafundOutputs inp.ParentID).isSome = true)
    (hmid : forEachIdx (fun i txn s c =>
        (addNewHash noFail (fun s c => putObject noFail c s
            (fun s => { s with transactions := alPut s.transactions txn.txid ⟨bid, i⟩ }))
            hashTransaction txn.txid s c).andThen (fun s c =>
        addTransaction noFail txn s c)) 0 txns1 sP cP = ⟨sMid, cMid, none⟩)
    (hallMid : ∀ inp ∈ ins1, (alGet sMid.siacoinOutputs inp.ParentID).isSome = true)
    (hmissMid : alGet sMid.siacoinOutputs oid = none)
    (htgt : computeBlockTarget be debug testing b = TargetOutcome.ok tgt)
    (htxs : b.Transactions = tx :: txnsR)
    (hpay : ∀ k, k < b.MinerPayouts.length → b.MinerPayoutID k ≠ oid)
    (hmissStore : alGet store.siacoinOutputs oid = none)
    (hallStore : ∀ inp ∈ ins1, (alGet store.siacoinOutputs inp.ParentID).isSome = true)
    (htgt2 : computeBlockTarget be debug testing b2 = TargetOutcome.ok tgt2)
    (htxs2 : b2.Transactions = tx2 :: txnsR2)
    (hcoins2S : ∀ inp ∈ tx2.SiacoinInputs, (alGet store.siacoinOutputs inp.ParentID).isSome = true)
    (hrevs2S : ∀ r ∈ tx2.FileContractRevisions, (alGet store.fileContracts r.ParentID).isSome = true)
    (hprfs2S : ∀ p ∈ tx2.StorageProofs, (alGet store.fileContracts p.ParentID).isSome = true)
    (hfall2S : ∀ inp ∈ fins1, (alGet store.siafundOutputs inp.ParentID).isSome = true)
    (hfmissStore : alGet store.siafundOutputs foid = none) :
    addSiacoinInput noFail oid txid s0 c0 = ⟨s0, c0 + 1, some DBErr.ErrNilEntry⟩
    ∧ addSiafundInput noFail foid txid s0 c0 = ⟨s0, c0 + 1, some DBErr.ErrNilEntry⟩
    ∧ (∃ s' c', addTransaction noFail tx s0 c0 = ⟨s', c', some DBErr.ErrNilEntry⟩)
    ∧ (∃ s' c', addTransaction noFail tx2 s0 c0 = ⟨s', c', some DBErr.ErrNilEntry⟩)
    ∧ (∃ s' c', forEachIdx (fun i txn s c =>
        (addNewHash noFail (fun s c => putObject noFail c s
            (fun s => { s with transactions := alPut s.transactions txn.txid ⟨bid, i⟩ }))
            hashTransaction txn.txid s c).andThen (fun s c =>
        addTransaction noFail txn s c)) 0 (txns1 ++ tx :: txns2) sP cP
        = ⟨s', c', some DBErr.ErrNilEntry⟩)
    ∧ (addBlockDB be debug testing noFail store b = BlockResult.failed DBErr.ErrNilEntry
       ∧ visibleStore store (addBlockDB be debug testing noFail store b) = store)
    ∧ (addBlockDB be debug testing noFail store b2 = BlockResult.failed DBErr.ErrNilEntry
       ∧ visibleStore store (addBlockDB be debug testing noFail store b2) = store) := by
  have hb := addBlockDB_missing_coin be debug testing b store tgt oid tx ins1 ins2 txnsR
    htgt htxs hins hpay hmissStore hallStore
  have hb2 := addBlockDB_missing_fund be debug testing b2 store tgt2 foid tx2 fins1 fins2
    txnsR2 htgt2 htxs2 hfins hcoins2S hrevs2S hprfs2S hfall2S hfmissStore
  exact ⟨addSiacoinInput_noFail_missing oid txid s0 c0 hmiss0,
    addSiafundInput_noFail_missing foid txid s0 c0 hfmiss0,
    addTransaction_missing_coin oid tx ins1 ins2 s0 c0 hins hall1 hmiss0,
    addTransaction_missing_fund foid tx2 fins1 fins2 s0 c0 hfins hcoins2 hrevs2 hprfs2
      hfall2 hfmiss0,
    txnLoop_missing_coin bid oid tx ins1 ins2 txns1 txns2 sP cP sMid cMid hins hmid
      hallMid hmissMid,
    ⟨hb, by rw [hb]; rfl⟩, ⟨hb2, by rw [hb2]; rfl⟩⟩

/-- C5 witness: on the empty store, output id 1 was never created; spending
it as a coin input (transaction 2) or as a fund input (transaction 4) fails
with `ErrNilEntry` at the input step, in `addTransaction`, in the block
transaction loop, and indexing a block containing either transaction fails
with `ErrNilEntry` and leaves the visible store empty. -/
theorem claim5_witness :
    (alGet (⟨[], [], [], [], [], [], [], []⟩ : TxState).siacoinOutputs 1 = none
      ∧ alGet (⟨[], [], [], [], [], [], [], []⟩ : TxState).siafundOutputs 1 = none)
    ∧ (addSiacoinInput noFail 1 2 ⟨[], [], [], [], [], [], [], []⟩ 0
        = ⟨⟨[], [], [], [], [], [], [], []⟩, 0 + 1, some DBErr.ErrNilEntry⟩
      ∧ addSiafundInput noFail 1 2 ⟨[], [], [], [], [], [], [], []⟩ 0
        = ⟨⟨[], [], [], [], [], [], [], []⟩, 0 + 1, some DBErr.ErrNilEntry⟩
      ∧ (∃ s' c', addTransaction noFail ⟨2, [⟨1⟩], [], [], [], [], [], []⟩
          ⟨[], [], [], [], [], [], [], []⟩ 0 = ⟨s', c', some DBErr.ErrNilEntry⟩)
      ∧ (∃ s' c', addTransaction noFail ⟨4, [], [], [], [], [], [⟨1⟩], []⟩
          ⟨[], [], [], [], [], [], [], []⟩ 0 = ⟨s', c', some DBErr.ErrNilEntry⟩)
      ∧ (∃ s' c', forEachIdx (fun i txn s c =>
          (addNewHash noFail (fun s c => putObject noFail c s
              (fun s => { s with transactions := alPut s.transactions txn.txid ⟨3, i⟩ }))
              hashTransaction txn.txid s c).andThen (fun s c =>
          addTransaction noFail txn s c)) 0
          ([] ++ ⟨2, [⟨1⟩], [], [], [], [], [], []⟩ :: [])
          ⟨[], [], [], [], [], [], [], []⟩ 0 = ⟨s', c', some DBErr.ErrNilEntry⟩)
      ∧ (addBlockDB ⟨3, 0, []⟩ false false noFail ⟨[], [], [], [], [], [], [], []⟩
            ⟨3, 0, 9, [], [⟨2, [⟨1⟩], [], [], [], [], [], []⟩]⟩
          = BlockResult.failed DBErr.ErrNilEntry
        ∧ visibleStore ⟨[], [], [], [], [], [], [], []⟩
            (addBlockDB ⟨3, 0, []⟩ false false noFail ⟨[], [], [], [], [], [], [], []⟩
              ⟨3, 0, 9, [], [⟨2, [⟨1⟩], [], [], [], [], [], []⟩]⟩)
          = ⟨[], [], [], [], [], [], [], []⟩)
      ∧ (addBlockDB ⟨3, 0, []⟩ false false noFail ⟨[], [], [], [], [], [], [], []⟩
            ⟨3, 0, 9, [], [⟨4, [], [], [], [], [], [⟨1⟩], []⟩]⟩
          = BlockResult.failed DBErr.ErrNilEntry
        ∧ visibleStore ⟨[], [], [], [], [], [], [], []⟩
            (addBlockDB ⟨3, 0, []⟩ false false noFail ⟨[], [], [], [], [], [], [], []⟩
              ⟨3, 0, 9, [], [⟨4, [], [], [], [], [], [⟨1⟩], []⟩]⟩)
          = ⟨[], [], [], [], [], [], [], []⟩)) :=
  ⟨⟨rfl, rfl⟩,
    claim5_spend_missing_output 1 1 2 3 ⟨[], [], [], [], [], [], [], []⟩ 0
      ⟨2, [⟨1⟩], [], [], [], [], [], []⟩ ⟨4, [], [], [], [], [], [⟨1⟩], []⟩
      [] [] [] [] [] [] [] []
      ⟨[], [], [], [], [], [], [], []⟩ ⟨[], [], [], [], [], [], [], []⟩ 0 0
      ⟨3, 0, []⟩ false false
      ⟨3, 0, 9, [], [⟨2, [⟨1⟩], [], [], [], [], [], []⟩]⟩
      ⟨3, 0, 9, [], [⟨4, [], [], [], [], [], [⟨1⟩], []⟩]⟩
      ⟨[], [], [], [], [], [], [], []⟩ RootDepth RootDepth
      rfl rfl rfl (by simp) rfl (by simp) (by simp) (by simp) (by simp)
      rfl (by simp) rfl
      (by decide) rfl (by simp) rfl (by simp)
      (by decide) rfl (by simp) (by simp) (by simp) (by simp) rfl⟩

/-- C6 amended: `addSiacoinInput` and `addSiafundInput` overwrite the
spending id unconditionally, so after a sequence of input-processing
operations the stored spending id is that of the LAST processed input
(the creator is unchanged throughout); likewise `addFcProof` overwrites
the proof id with the given transaction.  The ids are therefore "set at
most once" only under the caller's guarantee that each output is spent,
and each contract proven, at most once. -/
theorem claim6_amended_last_spender_wins (oid cr sp tl fcid t cr2 pf foid crF spF tlF : Hash)
    (ids revs2 idsF : List Hash) (s s2 sF : TxState) (c c2 cF : Nat)
    (h : alGet s.siacoinOutputs oid = some ⟨cr, sp⟩)
    (hl : ids.getLast? = some tl)
    (h2 : alGet s2.fileContracts fcid = some ⟨cr2, revs2, pf⟩)
    (hF : alGet sF.siafundOutputs foid = some ⟨crF, spF⟩)
    (hlF : idsF.getLast? = some tlF) :
    (∃ s' c', forEach (fun t => addSiacoinInput noFail oid t) ids s c = ⟨s', c', none⟩
       ∧ alGet s'.siacoinOutputs oid = some ⟨cr, tl⟩)
    ∧ (∃ s' c', forEach (fun t => addSiafundInput noFail foid t) idsF sF cF = ⟨s', c', none⟩
       ∧ alGet s'.siafundOutputs foid = some ⟨crF, tlF⟩)
    ∧ (∃ s'' c'', addFcProof noFail fcid t s2 c2 = ⟨s'', c'', none⟩
       ∧ alGet s''.fileContracts fcid = some ⟨cr2, revs2, t⟩) := by
  refine ⟨?_, ?_, ?_⟩
  · have key : ∀ (ids : List Hash) (tl : Hash), ids.getLast? = some tl →
        ∀ (i : Nat) (s : TxState) (c : Nat) (sp : Hash),
        alGet s.siacoinOutputs oid = some ⟨cr, sp⟩ →
        ∃ s' c', forEachIdx (fun _ t => addSiacoinInput noFail oid t) i ids s c = ⟨s', c', none⟩
          ∧ alGet s'.siacoinOutputs oid = some ⟨cr, tl⟩ := by
      intro ids
      induction ids with
      | nil => intro tl htl; simp at htl
      | cons u ts ih =>
        intro tl htl i s c sp h
        have hstep := addSiacoinInput_noFail_found oid u s c ⟨cr, sp⟩ h
        have hnext : alGet ({ s with
            siacoinOutputs := alPut s.siacoinOutputs oid ⟨cr, u⟩ } : TxState).siacoinOutputs oid
            = some ⟨cr, u⟩ := by
          simpa using alGet_alPut_self s.siacoinOutputs oid ⟨cr, u⟩
        cases ts with
        | nil =>
          have htl' : u = tl := by simpa using htl
          subst htl'
          refine ⟨_, c + 2, ?_, hnext⟩
          unfold forEachIdx
          rw [hstep]
          rfl
        | cons u2 ts2 =>
          have htl' : (u2 :: ts2).getLast? = some tl := by
            rw [List.getLast?_cons_cons] at htl
            exact htl
          obtain ⟨s', c', heq, hget⟩ := ih tl htl' (i + 1) _ (c + 2) u hnext
          refine ⟨s', c', ?_, hget⟩
          unfold forEachIdx
          rw [hstep]
          simpa using heq
    unfold forEach
    exact key ids tl hl 0 s c sp h
  · have key : ∀ (ids : List Hash) (tl : Hash), ids.getLast? = some tl →
        ∀ (i : Nat) (s : TxState) (c : Nat) (sp : Hash),
        alGet s.siafundOutputs foid = some ⟨crF, sp⟩ →
        ∃ s' c', forEachIdx (fun _ t => addSiafundInput noFail foid t) i ids s c = ⟨s', c', none⟩
          ∧ alGet s'.siafundOutputs foid = some ⟨crF, tl⟩ := by
      intro ids
      induction ids with
      | nil => intro tl htl; simp at htl
      | cons u ts ih =>
        intro tl htl i s c sp h
        have hstep := addSiafundInput_noFail_found foid u s c ⟨crF, sp⟩ h
        have hnext : alGet ({ s with
            siafundOutputs := alPut s.siafundOutputs foid ⟨crF, u⟩ } : TxState).siafundOutputs foid
            = some ⟨crF, u⟩ := by
          simpa using alGet_alPut_self s.siafundOutputs foid ⟨crF, u⟩
        cases ts with
        | nil =>
          have htl' : u = tl := by simpa using htl
          subst htl'
          refine ⟨_, c + 2, ?_, hnext⟩
          unfold forEachIdx
          rw [hstep]
          rfl
        | cons u2 ts2 =>
          have htl' : (u2 :: ts2).getLast? = some tl := by
            rw [List.getLast?_cons_cons] at htl
            exact htl
          obtain ⟨s', c', heq, hget⟩ := ih tl htl' (i + 1) _ (c + 2) u hnext
          refine ⟨s', c', ?_, hget⟩
          unfold forEachIdx
          rw [hstep]
          simpa using heq
    unfold forEach
    exact key idsF tlF hlF 0 sF cF spF hF
  · have hstep := addFcProof_noFail_found fcid t s2 c2 ⟨cr2, revs2, pf⟩ h2
    refine ⟨_, c2 + 2, hstep, ?_⟩
    simpa using alGet_alPut_self s2.fileContracts fcid ⟨cr2, revs2, t⟩

/-- C6 amended witness: coin output 8 (creator 2, spender 0) spent by the
sequence [5, 6] ends with spender 6; fund output 12 (creator 2, spender 0)
spent by the same sequence ends with spender 6; contract 5 (proof 7)
re-proven by transaction 4 ends with proof 4. -/
theorem claim6_witness :
    (alGet ([(8, (⟨2, 0⟩ : OutputTransactions))]) 8 = some ⟨2, 0⟩
      ∧ ([5, 6] : List Hash).getLast? = some 6
      ∧ alGet ([(5, (⟨9, [3], 7⟩ : FcInfo))]) 5 = some ⟨9, [3], 7⟩
      ∧ alGet ([(12, (⟨2, 0⟩ : OutputTransactions))]) 12 = some ⟨2, 0⟩)
    ∧ ((∃ s' c', forEach (fun t => addSiacoinInput noFail 8 t) [5, 6]
          ⟨[], [], [], [], [], [(8, ⟨2, 0⟩)], [], []⟩ 0 = ⟨s', c', none⟩
        ∧ alGet s'.siacoinOutputs 8 = some ⟨2, 6⟩)
      ∧ (∃ s' c', forEach (fun t => addSiafundInput noFail 12 t) [5, 6]
          ⟨[], [], [], [], [], [], [(12, ⟨2, 0⟩)], []⟩ 0 = ⟨s', c', none⟩
        ∧ alGet s'.siafundOutputs 12 = some ⟨2, 6⟩)
      ∧ (∃ s'' c'', addFcProof noFail 5 4
          ⟨[], [], [], [], [], [], [], [(5, ⟨9, [3], 7⟩)]⟩ 0 = ⟨s'', c'', none⟩
        ∧ alGet s''.fileContracts 5 = some ⟨9, [3], 4⟩)) :=
  ⟨⟨by decide, by decide, by decide, by decide⟩,
    claim6_amended_last_spender_wins 8 2 0 6 5 4 9 7 12 2 0 6 [5, 6] [3] [5, 6]
      ⟨[], [], [], [], [], [(8, ⟨2, 0⟩)], [], []⟩
      ⟨[], [], [], [], [], [], [], [(5, ⟨9, [3], 7⟩)]⟩
      ⟨[], [], [], [], [], [], [(12, ⟨2, 0⟩)], []⟩ 0 0 0
      (by decide) (by decide) (by decide) (by decide) (by decide)⟩

end Sia
